import Mathlib

/-!
Shallow embedding of the finsmar backend's multi-provider synchronization and
reconciliation engine (src/backend), together with proofs about it.

The embedding covers:
* the Plaid category → budget-bucket mapping (`map_category`,
  services/plaid_service.py lines 12-30);
* the retention cleanup (`cleanup_old_transactions`, plaid_service.py 144-159);
* the per-page transaction sync loop with commit/rollback and cursor handling
  (`sync_transactions_for_item`, plaid_service.py 32-142);
* the account reconcilers (`sync_plaid_accounts` routes.py 207-243,
  `sync_robinhood_portfolio` routes.py 974-996);
* the portfolio valuation (`get_portfolio_overview`, routes.py 1159-1241);
* the price-fetch portion of the background job (`background_sync_job`,
  app.py 54-97), as an event trace.

Machine reals (Python float / Decimal) are modelled as `ℚ`; SQL rows as Lean
structures; the session/DB state as lists of rows; a Python `None`-able value
as `Option`.  A Python dict field that may be missing from a provider record
is `Option` as well (`none` = key absent).  Places where the Python code would
raise an uncaught exception (the category-list indexing on plaid_service.py
lines 78-79 and 92-93) are modelled by `Option`-returning functions, `none`
meaning "the sync crashed into the outer `except` handler".
-/

/-- Calendar date, compared lexicographically — the semantics of Python
`datetime.date` comparison. -/
structure Date where
  year : Nat
  month : Nat
  day : Nat
deriving DecidableEq, Repr

/-- Strict `<` on dates (Python `date.__lt__`), lexicographic on
(year, month, day). -/
def Date.ltb (a b : Date) : Bool :=
  if a.year < b.year then true
  else if b.year < a.year then false
  else if a.month < b.month then true
  else if b.month < a.month then false
  else decide (a.day < b.day)

/-- Leap-year rule of the Gregorian calendar (Python `calendar.isleap`). -/
def isLeapYear (y : Nat) : Bool :=
  y % 4 = 0 && (y % 100 ≠ 0 || y % 400 = 0)

/-- Number of days in a month, used by `dateutil.relativedelta` to clamp the
day when shifting months. -/
def daysInMonth (y m : Nat) : Nat :=
  if m = 2 then (if isLeapYear y then 29 else 28)
  else if m = 4 || m = 6 || m = 9 || m = 11 then 30
  else 31

/-- `today - relativedelta(months=5)` followed by `.replace(day=1)`
(plaid_service.py lines 150-151).  `relativedelta` shifts the month index
back by 5 (borrowing from the year) and clamps the day to the target month's
length; the subsequent `replace(day=1)` then forces the day to 1. -/
def five_months_ago (today : Date) : Date :=
  let t := today.year * 12 + (today.month - 1) - 5
  let shifted : Date :=
    { year := t / 12, month := t % 12 + 1,
      day := min today.day (daysInMonth (t / 12) (t % 12 + 1)) }
  { shifted with day := 1 }

-- ---------------------------------------------------------------------------
-- Category mapping (plaid_service.py lines 12-30)
-- ---------------------------------------------------------------------------

/-- The static lookup table `PLAID_CATEGORY_TO_BUDGET_BUCKET`
(plaid_service.py lines 12-18). -/
def PLAID_CATEGORY_TO_BUDGET_BUCKET : List (String × String) :=
  [("Food and Drink", "Food & Drink"), ("Travel", "Travel"),
   ("Transfer", "Transfers"), ("Payment", "Bills & Utilities"),
   ("Shops", "Shopping"), ("Recreation", "Entertainment"),
   ("Service", "Services"), ("Utilities", "Bills & Utilities"),
   ("Rent", "Housing"), ("Mortgage", "Housing"), ("Payroll", "Income"),
   ("Deposit", "Income"), ("Interest Earned", "Income"),
   ("_DEFAULT_", "Miscellaneous")]

/-- Dictionary lookup in the static table. -/
def bucketLookup (k : String) : Option String :=
  (PLAID_CATEGORY_TO_BUDGET_BUCKET.find? (fun p => p.1 = k)).map Prod.snd

/-- `PLAID_CATEGORY_TO_BUDGET_BUCKET["_DEFAULT_"]` — the key is present in
the table, so the `getD` fallback is unreachable. -/
def defaultBucket : String := (bucketLookup "_DEFAULT_").getD "Miscellaneous"

/-- `PlaidService._map_category` (plaid_service.py lines 27-30).
`none` and `some []` both model a falsy `plaid_categories` argument
(Python `if not plaid_categories`). -/
def map_category : Option (List String) → String
  | none => defaultBucket
  | some [] => defaultBucket
  | some (primary :: _) => (bucketLookup primary).getD defaultBucket

example : map_category (some ["Food and Drink", "Restaurants"]) = "Food & Drink" := by decide
example : map_category (some ["Bogus"]) = "Miscellaneous" := by decide
example : map_category none = "Miscellaneous" := by decide

-- ---------------------------------------------------------------------------
-- Data model (models.py)
-- ---------------------------------------------------------------------------

/-- A row of the `account` table (models.py lines 6-35), restricted to the
columns the synchronization and valuation code reads or writes. -/
structure Account where
  id : Nat
  name : String
  source : String
  accountType : String
  accountSubtype : Option String
  externalId : Option String
  balance : ℚ
deriving DecidableEq, Repr

/-- A row of the `transaction` table (models.py lines 99-132). -/
structure TxnRow where
  accountDbId : Nat
  plaidTransactionId : String
  plaidAccountId : String
  name : String
  merchantName : Option String
  amount : ℚ
  currencyCode : Option String
  date : Date
  pending : Bool
  plaidPrimaryCategory : Option String
  plaidDetailedCategory : Option String
  plaidCategoryId : Option String
  budgetCategory : Option String
deriving DecidableEq, Repr

/-- A row of the `market_price` table (models.py lines 84-96).  The
`last_updated` timestamp is modelled as a `Nat` (instants ordered by `≤`). -/
structure MarketPrice where
  symbol : String
  price_usd : ℚ
  last_updated : Nat
deriving DecidableEq, Repr

/-- One transaction record of a sync page as delivered by the provider
(a dict in the Python code).  `Option` fields model dict keys that may be
absent (`none` = key absent). -/
structure TxnData where
  account_id : String
  transaction_id : String
  name : Option String
  merchant_name : Option String
  amount : ℚ
  iso_currency_code : Option String
  date : Date
  pending : Bool
  category : Option (List String)
  category_id : Option String
deriving DecidableEq, Repr

/-- `cleanup_old_transactions` (plaid_service.py lines 144-159): delete every
`Transaction` with `date < five_months_ago`. -/
def cleanup_old_transactions (today : Date) (txns : List TxnRow) : List TxnRow :=
  txns.filter (fun r => ¬ Date.ltb r.date (five_months_ago today))

-- ---------------------------------------------------------------------------
-- Transaction sync engine (plaid_service.py lines 32-142)
-- ---------------------------------------------------------------------------

/-- `txn_data.get('category', [None])[0]` on the insert path
(plaid_service.py line 78).  Result `none` = uncaught `IndexError`
(`[][0]` when the category key holds an empty list). -/
def addedPrimaryCat : Option (List String) → Option (Option String)
  | none => some none
  | some [] => none
  | some (h :: _) => some (some h)

/-- `txn_data.get('category', [])[-1]` on the insert path
(plaid_service.py line 79).  Result `none` = uncaught `IndexError`
(`[][-1]`, which fires both when the key is absent and when it holds `[]`). -/
def addedDetailedCat : Option (List String) → Option (Option String)
  | none => none
  | some [] => none
  | some l => some l.getLast?

/-- `txn_data.get('category', [txn.plaid_primary_category])[0]` on the
modify path (plaid_service.py line 92). -/
def modPrimaryCat (old : Option String) : Option (List String) → Option (Option String)
  | none => some old
  | some [] => none
  | some (h :: _) => some (some h)

/-- `txn_data.get('category', [txn.plaid_detailed_category])[-1]` on the
modify path (plaid_service.py line 93). -/
def modDetailedCat (old : Option String) : Option (List String) → Option (Option String)
  | none => some old
  | some [] => none
  | some l => some l.getLast?

/-- Building the new `Transaction` row on the insert path
(plaid_service.py lines 73-80).  `none` = the row construction raised. -/
def mkAddedRow (acc : Account) (td : TxnData) : Option TxnRow := do
  let prim ← addedPrimaryCat td.category
  let det ← addedDetailedCat td.category
  some { accountDbId := acc.id,
         plaidTransactionId := td.transaction_id,
         plaidAccountId := td.account_id,
         name := td.name.getD (td.merchant_name.getD "N/A"),
         merchantName := td.merchant_name,
         amount := td.amount,
         currencyCode := td.iso_currency_code,
         date := td.date,
         pending := td.pending,
         plaidPrimaryCategory := prim,
         plaidDetailedCategory := det,
         plaidCategoryId := td.category_id,
         budgetCategory := some (map_category td.category) }

/-- The `added` loop (plaid_service.py lines 63-82).  Walks the added set in
order, threading the staged transaction rows `st` and the list `dups` of
records re-routed to the modified set (Python appends them to the `modified`
list it iterates later).  A record whose provider account id matches no
`Account` is skipped; a record whose transaction id already exists is
collected into `dups`; otherwise a new row is staged. -/
def applyAdded (accounts : List Account) :
    List TxnData → List TxnRow → List TxnData → Option (List TxnRow × List TxnData)
  | [], st, dups => some (st, dups)
  | td :: tds, st, dups =>
    match accounts.find? (fun a => decide (a.externalId = some td.account_id)) with
    | none => applyAdded accounts tds st dups
    | some acc =>
      if (st.find? (fun r => decide (r.plaidTransactionId = td.transaction_id))).isSome then
        applyAdded accounts tds st (dups ++ [td])
      else do
        let row ← mkAddedRow acc td
        applyAdded accounts tds (st ++ [row]) dups

/-- The field updates of the `modified` branch applied to one existing row
(plaid_service.py lines 88-94). -/
def updateRow (r : TxnRow) (td : TxnData) : Option TxnRow := do
  let prim ← modPrimaryCat r.plaidPrimaryCategory td.category
  let det ← modDetailedCat r.plaidDetailedCategory td.category
  some { r with
         amount := td.amount,
         pending := td.pending,
         name := td.name.getD (td.merchant_name.getD r.name),
         merchantName := td.merchant_name,
         date := td.date,
         budgetCategory := some (map_category td.category),
         plaidPrimaryCategory := prim,
         plaidDetailedCategory := det,
         plaidCategoryId := match td.category_id with
                            | none => r.plaidCategoryId
                            | some s => some s }

/-- One iteration of the `modified` loop (plaid_service.py lines 85-96):
locate the first row with the record's transaction id and overwrite its
mutable fields; if none exists, log and skip. -/
def applyModifiedOne (td : TxnData) : List TxnRow → Option (List TxnRow)
  | [] => some []
  | r :: rs =>
    if r.plaidTransactionId = td.transaction_id then do
      let r' ← updateRow r td
      some (r' :: rs)
    else do
      let rs' ← applyModifiedOne td rs
      some (r :: rs')

/-- The `modified` loop over a whole list of records. -/
def applyModified : List TxnData → List TxnRow → Option (List TxnRow)
  | [], st => some st
  | td :: tds, st => do
    let st' ← applyModifiedOne td st
    applyModified tds st'

/-- The added + modified phases of one sync page (plaid_service.py lines
63-96): the added loop runs first, and the duplicates it collected are
processed at the tail of the modified loop. -/
def applyAddedModified (accounts : List Account) (added modified : List TxnData)
    (st : List TxnRow) : Option (List TxnRow) := do
  let (st1, dups) ← applyAdded accounts added st []
  applyModified (modified ++ dups) st1

/-- One page of the provider's change feed, as returned by
`transactions_sync` (plaid_service.py lines 50-56). -/
structure Page where
  added : List TxnData
  modified : List TxnData
  removed : List String
  has_more : Bool
  next_cursor : Option String
deriving Repr

/-- Full application of one page to the staged rows (plaid_service.py lines
63-105): added, modified, then the bulk delete of the removed ids. -/
def applyPage (accounts : List Account) (st : List TxnRow) (p : Page) :
    Option (List TxnRow) := do
  let st2 ← applyAddedModified accounts p.added p.modified st
  some (st2.filter (fun r => ¬ p.removed.contains r.plaidTransactionId))

/-- Outcome of the `while has_more` loop (plaid_service.py lines 43-118).
`txns` is always the last successfully *committed* row state (the
`SQLAlchemyError` handler rolls the staged page back, and a crashed page is
never committed). -/
inductive LoopOut where
  | ok (txns : List TxnRow) (cursor : Option String) (next : Option String)
  | failed (txns : List TxnRow) (next : Option String)
  | crashed (txns : List TxnRow)
  | starved (txns : List TxnRow) (cursor : Option String)
deriving Repr, DecidableEq

/-- The page loop.  The provider's successive responses are supplied as the
list `pages`, each paired with the outcome its `db.session.commit()` would
have (`true` = commit succeeds).  `cursor` is the working cursor variable;
it is assigned `next_cursor` only on the line after a successful commit
(plaid_service.py lines 108-111).  On a commit failure the session is rolled
back, `item_failed` is set and the loop breaks (lines 113-117), which is the
`failed` outcome.  `starved` is a model artefact: the loop still wants a page
(`has_more`) but the supplied response list is exhausted. -/
def syncLoop (accounts : List Account) :
    List (Page × Bool) → Option String → List TxnRow → LoopOut
  | [], cursor, txns => .starved txns cursor
  | (p, commitOk) :: rest, _cursor, txns =>
    match applyPage accounts txns p with
    | none => .crashed txns
    | some txns' =>
      if commitOk then
        if p.has_more then syncLoop accounts rest p.next_cursor txns'
        else .ok txns' p.next_cursor p.next_cursor
      else .failed txns p.next_cursor

/-- Result of `sync_transactions_for_item`: the committed transaction rows,
the stored `sync_cursor` of the `PlaidItem`, and the boolean the function
returns. -/
structure SyncResult where
  txns : List TxnRow
  storedCursor : Option String
  success : Bool
deriving Repr, DecidableEq

/-- `PlaidService.sync_transactions_for_item` (plaid_service.py lines
32-142).  `storedCursor` is the item's `sync_cursor` on entry; `None` is
normalized to the empty string before the first request (line 40).  After the
loop, the stored cursor is updated (in its own commit, whose outcome is
`cursorCommitOk`) only when the item did not fail and `next_cursor` is truthy
(lines 121-129); retention cleanup then runs only when the item did not fail
(lines 132-134), with `cleanupOk` the outcome of its internal commit.  A
crashed page falls to the outer `except` handler, which just returns
`False` (lines 140-142); page starvation is reported as a failure, standing
for a provider error on the next request. -/
def sync_transactions_for_item (today : Date) (accounts : List Account)
    (storedCursor : Option String) (txns : List TxnRow)
    (pages : List (Page × Bool)) (cursorCommitOk cleanupOk : Bool) : SyncResult :=
  let cursor0 : Option String := some (storedCursor.getD "")
  match syncLoop accounts pages cursor0 txns with
  | .ok txns' _cur next =>
    match next with
    | some s =>
      if s ≠ "" then
        if cursorCommitOk then
          ⟨if cleanupOk then cleanup_old_transactions today txns' else txns',
           some s, true⟩
        else ⟨txns', storedCursor, false⟩
      else
        ⟨if cleanupOk then cleanup_old_transactions today txns' else txns',
         storedCursor, true⟩
    | none =>
      ⟨if cleanupOk then cleanup_old_transactions today txns' else txns',
       storedCursor, true⟩
  | .failed txns' _next => ⟨txns', storedCursor, false⟩
  | .crashed txns' => ⟨txns', storedCursor, false⟩
  | .starved txns' _ => ⟨txns', storedCursor, false⟩

-- ---------------------------------------------------------------------------
-- C1: cursor safety of the page loop
-- ---------------------------------------------------------------------------

/-- C1: In `sync_transactions_for_item`, the working cursor is advanced to
`next_cursor` only after the page's persistence commit succeeds (second
equation: when the commit succeeds, the loop continues — or ends — with the
page's `next_cursor`); if the commit of a page fails, the loop aborts at that
page without proceeding to further pages and without committing the page
(first equation: the result is `failed` with the committed rows unchanged,
for every continuation `rest`), and the credential's stored `sync_cursor` is
unchanged and its sync reported failed for this cycle (third part). -/
theorem C1_cursor_advance_only_after_commit :
    (∀ (accounts : List Account) (p : Page) (rest : List (Page × Bool))
       (cur : Option String) (txns txns' : List TxnRow),
       applyPage accounts txns p = some txns' →
       syncLoop accounts ((p, false) :: rest) cur txns = .failed txns p.next_cursor
       ∧ syncLoop accounts ((p, true) :: rest) cur txns =
           (if p.has_more then syncLoop accounts rest p.next_cursor txns'
            else .ok txns' p.next_cursor p.next_cursor))
    ∧ (∀ (today : Date) (accounts : List Account) (stored : Option String)
         (txns : List TxnRow) (pages : List (Page × Bool))
         (cursorCommitOk cleanupOk : Bool) (t : List TxnRow) (n : Option String),
         syncLoop accounts pages (some (stored.getD "")) txns = .failed t n →
         sync_transactions_for_item today accounts stored txns pages
             cursorCommitOk cleanupOk = ⟨t, stored, false⟩) := by
  constructor
  · intro accounts p rest cur txns txns' h
    constructor
    · simp [syncLoop, h]
    · simp [syncLoop, h]
  · intro today accounts stored txns pages cursorCommitOk cleanupOk t n h
    simp only [sync_transactions_for_item, h]

/-- Witness for C1 at a concrete input: one page whose commit fails. -/
theorem C1_cursor_advance_only_after_commit_witness :
    syncLoop [] [(Page.mk [] [] [] false (some "c2"), false)] (some "") []
      = .failed [] (some "c2")
    ∧ sync_transactions_for_item (Date.mk 2026 10 12) [] none []
        [(Page.mk [] [] [] false (some "c2"), false)] true true
      = ⟨[], none, false⟩ := by
  refine ⟨(C1_cursor_advance_only_after_commit.1 []
    (Page.mk [] [] [] false (some "c2")) [] (some "") [] [] rfl).1, ?_⟩
  exact C1_cursor_advance_only_after_commit.2 (Date.mk 2026 10 12) [] none []
    [(Page.mk [] [] [] false (some "c2"), false)] true true [] (some "c2")
    ((C1_cursor_advance_only_after_commit.1 []
      (Page.mk [] [] [] false (some "c2")) [] (some "") [] [] rfl).1)

-- ---------------------------------------------------------------------------
-- C2: idempotence of the added-set under at-least-once delivery
-- ---------------------------------------------------------------------------

/-- The transaction rows carrying a given provider transaction id. -/
def txnsWithId (st : List TxnRow) (tid : String) : List TxnRow :=
  st.filter (fun r => decide (r.plaidTransactionId = tid))

/-- The delivered records carrying a given provider transaction id. -/
def recsWithId (l : List TxnData) (tid : String) : List TxnData :=
  l.filter (fun t => decide (t.transaction_id = tid))

lemma txnsWithId_nil (tid : String) : txnsWithId [] tid = [] := rfl

lemma txnsWithId_append (a b : List TxnRow) (tid : String) :
    txnsWithId (a ++ b) tid = txnsWithId a tid ++ txnsWithId b tid := by
  simp [txnsWithId]

lemma recsWithId_append (a b : List TxnData) (tid : String) :
    recsWithId (a ++ b) tid = recsWithId a tid ++ recsWithId b tid := by
  simp [recsWithId]

lemma updateRow_spec (r : TxnRow) (td : TxnData) (r' : TxnRow)
    (h : updateRow r td = some r') :
    r'.plaidTransactionId = r.plaidTransactionId ∧
    r'.accountDbId = r.accountDbId ∧
    r'.amount = td.amount ∧ r'.pending = td.pending ∧
    r'.name = td.name.getD (td.merchant_name.getD r.name) ∧
    r'.merchantName = td.merchant_name ∧ r'.date = td.date ∧
    r'.budgetCategory = some (map_category td.category) := by
  unfold updateRow at h
  cases hp : modPrimaryCat r.plaidPrimaryCategory td.category with
  | none => rw [hp] at h; simp at h
  | some prim =>
    cases hd : modDetailedCat r.plaidDetailedCategory td.category with
    | none => rw [hp, hd] at h; simp at h
    | some det =>
      rw [hp, hd] at h
      simp only [Option.bind_eq_bind, Option.some_bind, Option.some.injEq] at h
      subst h
      simp

/-- A new row staged by the insert path keeps the delivered transaction id
and points at the resolved account. -/
lemma mkAddedRow_spec (acc : Account) (td : TxnData) (row : TxnRow)
    (h : mkAddedRow acc td = some row) :
    row.plaidTransactionId = td.transaction_id ∧ row.accountDbId = acc.id := by
  unfold mkAddedRow at h
  cases hp : addedPrimaryCat td.category with
  | none => rw [hp] at h; simp at h
  | some prim =>
    cases hd : addedDetailedCat td.category with
    | none => rw [hp, hd] at h; simp at h
    | some det =>
      rw [hp, hd] at h
      simp only [Option.bind_eq_bind, Option.some_bind, Option.some.injEq] at h
      subst h
      simp

lemma txnsWithId_cons (r : TxnRow) (rs : List TxnRow) (tid : String) :
    txnsWithId (r :: rs) tid =
      if r.plaidTransactionId = tid then r :: txnsWithId rs tid
      else txnsWithId rs tid := by
  by_cases h : r.plaidTransactionId = tid <;>
    simp [txnsWithId, List.filter_cons, h]

lemma recsWithId_cons (t : TxnData) (ts : List TxnData) (tid : String) :
    recsWithId (t :: ts) tid =
      if t.transaction_id = tid then t :: recsWithId ts tid
      else recsWithId ts tid := by
  by_cases h : t.transaction_id = tid <;>
    simp [recsWithId, List.filter_cons, h]

/-- A state whose id-filter is the singleton `[r0]` makes the duplicate
check of the added loop fire. -/
lemma find_isSome_of_txnsWithId (st : List TxnRow) (tid : String) (r0 : TxnRow)
    (h : txnsWithId st tid = [r0]) :
    (st.find? (fun r => decide (r.plaidTransactionId = tid))).isSome = true := by
  rw [List.find?_isSome]
  have : r0 ∈ txnsWithId st tid := by rw [h]; exact List.mem_singleton.2 rfl
  rcases List.mem_filter.1 this with ⟨hmem, hp⟩
  exact ⟨r0, hmem, hp⟩

/-- Through the added loop, an already-present transaction id keeps exactly
its one existing row (never re-inserted, never mutated), and the record
carrying that id — unique in the set and with a resolvable account — is
routed to the duplicates list. -/
lemma applyAdded_dup_route (accounts : List Account) (tid : String)
    (td : TxnData) (r0 : TxnRow)
    (hacc : (accounts.find?
      (fun a => decide (a.externalId = some td.account_id))).isSome = true) :
    ∀ (tds : List TxnData) (st : List TxnRow) (dups : List TxnData)
      (st1 : List TxnRow) (dups1 : List TxnData),
      txnsWithId st tid = [r0] →
      recsWithId dups tid ++ recsWithId tds tid = [td] →
      applyAdded accounts tds st dups = some (st1, dups1) →
      txnsWithId st1 tid = [r0] ∧ recsWithId dups1 tid = [td] := by
  intro tds
  induction tds with
  | nil =>
    intro st dups st1 dups1 hst hrec happ
    simp only [applyAdded, Option.some.injEq, Prod.mk.injEq] at happ
    obtain ⟨h1, h2⟩ := happ
    subst h1; subst h2
    simp only [recsWithId, List.filter_nil, List.append_nil] at hrec
    exact ⟨hst, hrec⟩
  | cons t tds ih =>
    intro st dups st1 dups1 hst hrec happ
    simp only [applyAdded] at happ
    split at happ
    · rename_i hf
      have hne : t.transaction_id ≠ tid := by
        intro he
        have ht : t = td := by
          rw [recsWithId_cons, if_pos he] at hrec
          cases hd : recsWithId dups tid with
          | nil => rw [hd] at hrec; simp at hrec; exact hrec.1
          | cons x xs => rw [hd] at hrec; simp at hrec
        rw [ht] at hf
        rw [hf] at hacc; simp at hacc
      rw [recsWithId_cons, if_neg hne] at hrec
      exact ih st dups st1 dups1 hst hrec happ
    · rename_i acc hf
      split at happ
      · rename_i hdup
        have hone : recsWithId [t] tid ++ recsWithId tds tid = recsWithId (t :: tds) tid := by
          by_cases he : t.transaction_id = tid <;>
            simp [recsWithId, List.filter_cons, he]
        have hrec' : recsWithId (dups ++ [t]) tid ++ recsWithId tds tid = [td] := by
          rw [recsWithId_append, List.append_assoc, hone]
          exact hrec
        exact ih st (dups ++ [t]) st1 dups1 hst hrec' happ
      · rename_i hdup
        have hne : t.transaction_id ≠ tid := by
          intro he
          exact hdup (by rw [he]; exact find_isSome_of_txnsWithId st tid r0 hst)
        cases hrow : mkAddedRow acc t with
        | none => rw [hrow] at happ; simp at happ
        | some row =>
          rw [hrow] at happ
          simp only [Option.bind_eq_bind, Option.some_bind] at happ
          have hrid : row.plaidTransactionId = t.transaction_id :=
            (mkAddedRow_spec acc t row hrow).1
          have hst' : txnsWithId (st ++ [row]) tid = [r0] := by
            rw [txnsWithId_append]
            have hz : txnsWithId [row] tid = [] := by
              simp [txnsWithId, List.filter_cons, hrid, hne]
            rw [hz, hst, List.append_nil]
          rw [recsWithId_cons, if_neg hne] at hrec
          exact ih (st ++ [row]) dups st1 dups1 hst' hrec happ

/-- A modified-loop step for a record with a different transaction id leaves
the rows carrying the id of interest untouched. -/
lemma applyModifiedOne_other (td : TxnData) (tid : String)
    (hne : td.transaction_id ≠ tid) :
    ∀ (st st' : List TxnRow), applyModifiedOne td st = some st' →
      txnsWithId st' tid = txnsWithId st tid := by
  intro st
  induction st with
  | nil =>
    intro st' h
    simp only [applyModifiedOne, Option.some.injEq] at h
    subst h; rfl
  | cons r rs ih =>
    intro st' h
    simp only [applyModifiedOne] at h
    split at h
    · rename_i heq
      cases hu : updateRow r td with
      | none => rw [hu] at h; simp at h
      | some r' =>
        rw [hu] at h
        simp only [Option.bind_eq_bind, Option.some_bind, Option.some.injEq] at h
        subst h
        have hrid : r'.plaidTransactionId = r.plaidTransactionId :=
          (updateRow_spec r td r' hu).1
        have hrneq : r.plaidTransactionId ≠ tid := by rw [heq]; exact hne
        rw [txnsWithId_cons, txnsWithId_cons, hrid, if_neg hrneq, if_neg hrneq]
    · rename_i heq
      cases hrs : applyModifiedOne td rs with
      | none => rw [hrs] at h; simp at h
      | some rs' =>
        rw [hrs] at h
        simp only [Option.bind_eq_bind, Option.some_bind, Option.some.injEq] at h
        subst h
        rw [txnsWithId_cons, txnsWithId_cons, ih rs' hrs]

/-- The modified-loop step for the record carrying the id of interest
rewrites the unique row with that id through `updateRow`. -/
lemma applyModifiedOne_target (td : TxnData) (tid : String)
    (htid : td.transaction_id = tid) (r0 : TxnRow) :
    ∀ (st st' : List TxnRow), txnsWithId st tid = [r0] →
      applyModifiedOne td st = some st' →
      ∃ r', updateRow r0 td = some r' ∧ txnsWithId st' tid = [r'] := by
  intro st
  induction st with
  | nil => intro st' hst h; simp [txnsWithId] at hst
  | cons r rs ih =>
    intro st' hst h
    simp only [applyModifiedOne] at h
    split at h
    · rename_i heq
      have hrtid : r.plaidTransactionId = tid := by rw [heq, htid]
      rw [txnsWithId_cons, if_pos hrtid] at hst
      simp only [List.cons.injEq] at hst
      obtain ⟨hr, hrs⟩ := hst
      cases hu : updateRow r td with
      | none => rw [hu] at h; simp at h
      | some r' =>
        rw [hu] at h
        simp only [Option.bind_eq_bind, Option.some_bind, Option.some.injEq] at h
        subst h
        refine ⟨r', by rw [← hr]; exact hu, ?_⟩
        have hrid : r'.plaidTransactionId = tid := by
          rw [(updateRow_spec r td r' hu).1]; exact hrtid
        rw [txnsWithId_cons, if_pos hrid, hrs]
    · rename_i heq
      have hrtid : r.plaidTransactionId ≠ tid := by
        intro hc; exact heq (by rw [hc, htid])
      rw [txnsWithId_cons, if_neg hrtid] at hst
      cases hrs : applyModifiedOne td rs with
      | none => rw [hrs] at h; simp at h
      | some rs' =>
        rw [hrs] at h
        simp only [Option.bind_eq_bind, Option.some_bind, Option.some.injEq] at h
        subst h
        obtain ⟨r', hu, hfil⟩ := ih rs' hst hrs
        exact ⟨r', hu, by rw [txnsWithId_cons, if_neg hrtid, hfil]⟩

/-- Running the modified loop over records none of which carry the id of
interest leaves that id's rows untouched. -/
lemma applyModified_none (tid : String) :
    ∀ (l : List TxnData) (st st' : List TxnRow), recsWithId l tid = [] →
      applyModified l st = some st' → txnsWithId st' tid = txnsWithId st tid := by
  intro l
  induction l with
  | nil =>
    intro st st' hl h
    simp only [applyModified, Option.some.injEq] at h
    subst h; rfl
  | cons t ts ih =>
    intro st st' hl h
    rw [recsWithId_cons] at hl
    by_cases he : t.transaction_id = tid
    · rw [if_pos he] at hl; simp at hl
    · rw [if_neg he] at hl
      simp only [applyModified] at h
      cases h1 : applyModifiedOne t st with
      | none => rw [h1] at h; simp at h
      | some st1 =>
        rw [h1] at h
        simp only [Option.bind_eq_bind, Option.some_bind] at h
        rw [ih st1 st' hl h, applyModifiedOne_other t tid he st st1 h1]

/-- Running the modified loop over a list whose unique record with the id of
interest is `td` updates the unique row with that id through `updateRow`. -/
lemma applyModified_target (tid : String) (td : TxnData) (r0 : TxnRow) :
    ∀ (l : List TxnData) (st st' : List TxnRow),
      txnsWithId st tid = [r0] → recsWithId l tid = [td] →
      applyModified l st = some st' →
      ∃ r', updateRow r0 td = some r' ∧ txnsWithId st' tid = [r'] := by
  intro l
  induction l with
  | nil => intro st st' hst hl h; simp [recsWithId] at hl
  | cons t ts ih =>
    intro st st' hst hl h
    rw [recsWithId_cons] at hl
    simp only [applyModified] at h
    by_cases he : t.transaction_id = tid
    · rw [if_pos he] at hl
      simp only [List.cons.injEq] at hl
      obtain ⟨ht, hts⟩ := hl
      cases h1 : applyModifiedOne t st with
      | none => rw [h1] at h; simp at h
      | some st1 =>
        rw [h1] at h
        simp only [Option.bind_eq_bind, Option.some_bind] at h
        obtain ⟨r', hu, hfil⟩ := applyModifiedOne_target t tid he r0 st st1 hst h1
        refine ⟨r', by rw [← ht]; exact hu, ?_⟩
        rw [applyModified_none tid ts st1 st' hts h, hfil]
    · rw [if_neg he] at hl
      cases h1 : applyModifiedOne t st with
      | none => rw [h1] at h; simp at h
      | some st1 =>
        rw [h1] at h
        simp only [Option.bind_eq_bind, Option.some_bind] at h
        have hst1 : txnsWithId st1 tid = [r0] := by
          rw [applyModifiedOne_other t tid he st st1 h1]; exact hst
        exact ih st1 st' hst1 hl h

/-- A Plaid checking account, as reconciled into the `account` table. -/
def c2Account : Account :=
  ⟨1, "Checking", "Plaid", "depository", none, some "ACC1", 100⟩

/-- An existing `transaction` row created by a first delivery. -/
def c2ExistingRow : TxnRow :=
  ⟨1, "T1", "ACC1", "Coffee", none, 5, some "USD", ⟨2026, 9, 1⟩, false,
   some "Food and Drink", some "Restaurants", none, some "Food & Drink"⟩

/-- A second delivery of the same provider transaction id with changed
mutable fields. -/
def c2SecondDelivery : TxnData :=
  ⟨"ACC1", "T1", some "Coffee Shop", some "Blue Bottle", 7, some "USD",
   ⟨2026, 9, 2⟩, false, some ["Food and Drink", "Restaurants"],
   some "13005000"⟩

/-- The row after the second delivery's fields are applied. -/
def c2UpdatedRow : TxnRow :=
  ⟨1, "T1", "ACC1", "Coffee Shop", some "Blue Bottle", 7, some "USD",
   ⟨2026, 9, 2⟩, false, some "Food and Drink", some "Restaurants",
   some "13005000", some "Food & Drink"⟩

/-- C2 counterexample: the added loop checks account resolution *before* the
duplicate check (plaid_service.py lines 64-71), so a re-delivered record
whose provider account id matches no Account is skipped outright: the
existing row survives unchanged — its mutable fields do NOT reflect the
second delivery (amount stays 5, not the delivered 7), contradicting the
claim as stated. -/
theorem C2_counterexample :
    applyAddedModified [c2Account]
        [{ c2SecondDelivery with account_id := "ACC2" }] [] [c2ExistingRow]
      = some [c2ExistingRow]
    ∧ c2ExistingRow.plaidTransactionId
        = ({ c2SecondDelivery with account_id := "ACC2" } : TxnData).transaction_id
    ∧ c2ExistingRow.amount
        ≠ ({ c2SecondDelivery with account_id := "ACC2" } : TxnData).amount := by
  decide

/-- C2 (amended): for a record delivered in an "added" set whose provider
transaction id already exists as a Transaction row, *provided the record's
provider account id resolves to an existing Account* (otherwise it is
skipped with a warning and the row is left unchanged), and the page applies
without error, the sync engine does not insert a second row: exactly one row
with that id exists afterwards, and its mutable fields (amount, pending,
description, merchant, date, budget_category) reflect the second delivery.
The hypotheses `hadded`/`hmod` pin the claim's scenario: the record is the
only delivery of that id in the page. -/
theorem C2_added_dedup_amended
    (accounts : List Account) (p : Page) (st st' : List TxnRow)
    (td : TxnData) (r0 : TxnRow)
    (hacc : (accounts.find?
      (fun a => decide (a.externalId = some td.account_id))).isSome = true)
    (hrow : txnsWithId st td.transaction_id = [r0])
    (hadded : recsWithId p.added td.transaction_id = [td])
    (hmod : recsWithId p.modified td.transaction_id = [])
    (happly : applyAddedModified accounts p.added p.modified st = some st') :
    ∃ r', updateRow r0 td = some r'
      ∧ txnsWithId st' td.transaction_id = [r']
      ∧ r'.amount = td.amount ∧ r'.pending = td.pending
      ∧ r'.name = td.name.getD (td.merchant_name.getD r0.name)
      ∧ r'.merchantName = td.merchant_name
      ∧ r'.date = td.date
      ∧ r'.budgetCategory = some (map_category td.category) := by
  unfold applyAddedModified at happly
  cases ha : applyAdded accounts p.added st [] with
  | none => rw [ha] at happly; simp at happly
  | some out =>
    obtain ⟨st1, dups⟩ := out
    rw [ha] at happly
    simp only [Option.bind_eq_bind, Option.some_bind] at happly
    obtain ⟨hst1, hdups⟩ := applyAdded_dup_route accounts td.transaction_id td r0
      hacc p.added st [] st1 dups hrow (by simpa [recsWithId] using hadded) ha
    have hl : recsWithId (p.modified ++ dups) td.transaction_id = [td] := by
      rw [recsWithId_append, hmod, hdups]; rfl
    obtain ⟨r', hu, hfil⟩ := applyModified_target td.transaction_id td r0
      (p.modified ++ dups) st1 st' hst1 hl happly
    obtain ⟨_, _, h3, h4, h5, h6, h7, h8⟩ := updateRow_spec r0 td r' hu
    exact ⟨r', hu, hfil, h3, h4, h5, h6, h7, h8⟩

/-- Witness for the amended C2 at a concrete re-delivered page. -/
theorem C2_added_dedup_amended_witness :
    ∃ r', updateRow c2ExistingRow c2SecondDelivery = some r'
      ∧ txnsWithId [c2UpdatedRow] c2SecondDelivery.transaction_id = [r']
      ∧ r'.amount = c2SecondDelivery.amount
      ∧ r'.pending = c2SecondDelivery.pending
      ∧ r'.name = c2SecondDelivery.name.getD
          (c2SecondDelivery.merchant_name.getD c2ExistingRow.name)
      ∧ r'.merchantName = c2SecondDelivery.merchant_name
      ∧ r'.date = c2SecondDelivery.date
      ∧ r'.budgetCategory = some (map_category c2SecondDelivery.category) :=
  C2_added_dedup_amended [c2Account]
    (Page.mk [c2SecondDelivery] [] [] false none)
    [c2ExistingRow] [c2UpdatedRow] c2SecondDelivery c2ExistingRow
    (by decide) (by decide) (by decide) (by decide) (by decide)

-- ---------------------------------------------------------------------------
-- C10: referential integrity of Transaction → Account
-- ---------------------------------------------------------------------------

/-- Every transaction row references a live account row (models.py line 104:
`account_db_id` is a non-nullable foreign key into `account.id`). -/
def refIntegrity (accounts : List Account) (txns : List TxnRow) : Prop :=
  ∀ t ∈ txns, ∃ a ∈ accounts, a.id = t.accountDbId

/-- Deleting an `Account` under the relationship declared on models.py line
28 (`cascade="all, delete-orphan"`): the account row goes away and every
`Transaction` whose `account_db_id` references it is deleted with it. -/
def delete_account_cascade (accounts : List Account) (txns : List TxnRow)
    (aid : Nat) : List Account × List TxnRow :=
  (accounts.filter (fun a => decide (a.id ≠ aid)),
   txns.filter (fun t => decide (t.accountDbId ≠ aid)))

lemma applyAdded_refIntegrity (accounts : List Account) :
    ∀ (tds : List TxnData) (st : List TxnRow) (dups : List TxnData)
      (st1 : List TxnRow) (dups1 : List TxnData),
      applyAdded accounts tds st dups = some (st1, dups1) →
      refIntegrity accounts st → refIntegrity accounts st1 := by
  intro tds
  induction tds with
  | nil =>
    intro st dups st1 dups1 happ hri
    simp only [applyAdded, Option.some.injEq, Prod.mk.injEq] at happ
    rw [← happ.1]; exact hri
  | cons t tds ih =>
    intro st dups st1 dups1 happ hri
    simp only [applyAdded] at happ
    split at happ
    · exact ih st dups st1 dups1 happ hri
    · rename_i acc hf
      split at happ
      · exact ih st (dups ++ [t]) st1 dups1 happ hri
      · cases hrow : mkAddedRow acc t with
        | none => rw [hrow] at happ; simp at happ
        | some row =>
          rw [hrow] at happ
          simp only [Option.bind_eq_bind, Option.some_bind] at happ
          refine ih (st ++ [row]) dups st1 dups1 happ ?_
          intro x hx
          rcases List.mem_append.1 hx with hx | hx
          · exact hri x hx
          · have hid : row.accountDbId = acc.id := (mkAddedRow_spec acc t row hrow).2
            have hmem : acc ∈ accounts := List.mem_of_find?_eq_some hf
            rcases List.mem_singleton.1 hx with rfl
            exact ⟨acc, hmem, by rw [hid]⟩

lemma applyModifiedOne_refIntegrity (accounts : List Account) (td : TxnData) :
    ∀ (st st' : List TxnRow), applyModifiedOne td st = some st' →
      refIntegrity accounts st → refIntegrity accounts st' := by
  intro st
  induction st with
  | nil =>
    intro st' h hri
    simp only [applyModifiedOne, Option.some.injEq] at h
    rw [← h]; exact hri
  | cons r rs ih =>
    intro st' h hri
    simp only [applyModifiedOne] at h
    split at h
    · cases hu : updateRow r td with
      | none => rw [hu] at h; simp at h
      | some r' =>
        rw [hu] at h
        simp only [Option.bind_eq_bind, Option.some_bind, Option.some.injEq] at h
        rw [← h]
        intro x hx
        rcases List.mem_cons.1 hx with rfl | hx
        · obtain ⟨a, ha, hid⟩ := hri r (List.mem_cons_self r rs)
          exact ⟨a, ha, by rw [hid, (updateRow_spec r td x hu).2.1]⟩
        · exact hri x (List.mem_cons_of_mem r hx)
    · cases hrs : applyModifiedOne td rs with
      | none => rw [hrs] at h; simp at h
      | some rs' =>
        rw [hrs] at h
        simp only [Option.bind_eq_bind, Option.some_bind, Option.some.injEq] at h
        rw [← h]
        intro x hx
        rcases List.mem_cons.1 hx with rfl | hx
        · exact hri x (List.mem_cons_self x rs)
        · exact ih rs' hrs (fun y hy => hri y (List.mem_cons_of_mem r hy)) x hx

lemma applyModified_refIntegrity (accounts : List Account) :
    ∀ (l : List TxnData) (st st' : List TxnRow), applyModified l st = some st' →
      refIntegrity accounts st → refIntegrity accounts st' := by
  intro l
  induction l with
  | nil =>
    intro st st' h hri
    simp only [applyModified, Option.some.injEq] at h
    rw [← h]; exact hri
  | cons t ts ih =>
    intro st st' h hri
    simp only [applyModified] at h
    cases h1 : applyModifiedOne t st with
    | none => rw [h1] at h; simp at h
    | some st1 =>
      rw [h1] at h
      simp only [Option.bind_eq_bind, Option.some_bind] at h
      exact ih st1 st' h (applyModifiedOne_refIntegrity accounts t st st1 h1 hri)

/-- C10: every operation of the system keeps every Transaction row pointing
at a live Account row.  (i) A sync page only inserts rows whose
`account_db_id` is a resolved Account's id (the added loop skips records it
cannot attribute), never re-targets an existing row, and only ever deletes
rows — so page application preserves referential integrity.  (ii) Deleting
an Account cascades (models.py line 28): integrity is preserved and no
transaction referencing the deleted account survives.  (iii) Retention
cleanup only deletes rows, so it preserves integrity too. -/
theorem C10_no_orphan_transactions :
    (∀ (accounts : List Account) (st : List TxnRow) (p : Page)
       (st' : List TxnRow), applyPage accounts st p = some st' →
       refIntegrity accounts st → refIntegrity accounts st')
    ∧ (∀ (accounts : List Account) (txns : List TxnRow) (aid : Nat),
        refIntegrity accounts txns →
        refIntegrity (delete_account_cascade accounts txns aid).1
            (delete_account_cascade accounts txns aid).2
        ∧ ∀ t ∈ (delete_account_cascade accounts txns aid).2,
            t.accountDbId ≠ aid)
    ∧ (∀ (today : Date) (accounts : List Account) (txns : List TxnRow),
        refIntegrity accounts txns →
        refIntegrity accounts (cleanup_old_transactions today txns)) := by
  refine ⟨?_, ?_, ?_⟩
  · intro accounts st p st' happ hri
    unfold applyPage at happ
    cases ham : applyAddedModified accounts p.added p.modified st with
    | none => rw [ham] at happ; simp at happ
    | some st2 =>
      rw [ham] at happ
      simp only [Option.bind_eq_bind, Option.some_bind, Option.some.injEq] at happ
      have hri2 : refIntegrity accounts st2 := by
        unfold applyAddedModified at ham
        cases ha : applyAdded accounts p.added st [] with
        | none => rw [ha] at ham; simp at ham
        | some out =>
          obtain ⟨st1, dups⟩ := out
          rw [ha] at ham
          simp only [Option.bind_eq_bind, Option.some_bind] at ham
          exact applyModified_refIntegrity accounts (p.modified ++ dups) st1 st2 ham
            (applyAdded_refIntegrity accounts p.added st [] st1 dups ha hri)
      rw [← happ]
      intro x hx
      exact hri2 x (List.mem_of_mem_filter hx)
  · intro accounts txns aid hri
    constructor
    · intro t ht
      have ht' := List.mem_filter.1 ht
      obtain ⟨a, ha, hid⟩ := hri t ht'.1
      refine ⟨a, List.mem_filter.2 ⟨ha, ?_⟩, hid⟩
      have : t.accountDbId ≠ aid := by simpa using ht'.2
      simp only [decide_eq_true_eq]
      rw [hid]; exact this
    · intro t ht
      have ht' := List.mem_filter.1 ht
      simpa using ht'.2
  · intro today accounts txns hri t ht
    exact hri t (List.mem_of_mem_filter ht)

/-- Witness for C10: a cascade delete on a concrete two-account state. -/
theorem C10_no_orphan_transactions_witness :
    refIntegrity
        (delete_account_cascade
          [⟨1, "A", "Plaid", "depository", none, some "X", 10⟩,
           ⟨2, "B", "Plaid", "depository", none, some "Y", 20⟩]
          [⟨1, "T1", "X", "n1", none, 1, none, ⟨2026, 1, 1⟩, false,
            none, none, none, none⟩,
           ⟨2, "T2", "Y", "n2", none, 2, none, ⟨2026, 1, 2⟩, false,
            none, none, none, none⟩] 1).1
        (delete_account_cascade
          [⟨1, "A", "Plaid", "depository", none, some "X", 10⟩,
           ⟨2, "B", "Plaid", "depository", none, some "Y", 20⟩]
          [⟨1, "T1", "X", "n1", none, 1, none, ⟨2026, 1, 1⟩, false,
            none, none, none, none⟩,
           ⟨2, "T2", "Y", "n2", none, 2, none, ⟨2026, 1, 2⟩, false,
            none, none, none, none⟩] 1).2
    ∧ ∀ t ∈ (delete_account_cascade
          [⟨1, "A", "Plaid", "depository", none, some "X", 10⟩,
           ⟨2, "B", "Plaid", "depository", none, some "Y", 20⟩]
          [⟨1, "T1", "X", "n1", none, 1, none, ⟨2026, 1, 1⟩, false,
            none, none, none, none⟩,
           ⟨2, "T2", "Y", "n2", none, 2, none, ⟨2026, 1, 2⟩, false,
            none, none, none, none⟩] 1).2, t.accountDbId ≠ 1 :=
  C10_no_orphan_transactions.2.1
    [⟨1, "A", "Plaid", "depository", none, some "X", 10⟩,
     ⟨2, "B", "Plaid", "depository", none, some "Y", 20⟩]
    [⟨1, "T1", "X", "n1", none, 1, none, ⟨2026, 1, 1⟩, false,
      none, none, none, none⟩,
     ⟨2, "T2", "Y", "n2", none, 2, none, ⟨2026, 1, 2⟩, false,
      none, none, none, none⟩] 1 (by unfold refIntegrity; decide)

-- ---------------------------------------------------------------------------
-- C7: retention cleanup boundary
-- ---------------------------------------------------------------------------

lemma Date.ltb_irrefl (d : Date) : Date.ltb d d = false := by
  simp [Date.ltb]

/-- C7: retention cleanup deletes exactly the Transactions dated strictly
before the first day of the month five calendar months before today: a
transaction dated before that boundary is absent after cleanup, one dated
exactly on the boundary is retained; and the boundary really is the month
start (day 1) of the month whose index is today's month index minus 5. -/
theorem C7_retention_cleanup_boundary :
    (∀ (today : Date) (txns : List TxnRow) (t : TxnRow), t ∈ txns →
       (Date.ltb t.date (five_months_ago today) = true →
          t ∉ cleanup_old_transactions today txns)
       ∧ (t.date = five_months_ago today →
          t ∈ cleanup_old_transactions today txns))
    ∧ (∀ today : Date, (five_months_ago today).day = 1
        ∧ (five_months_ago today).year * 12 + ((five_months_ago today).month - 1)
            = today.year * 12 + (today.month - 1) - 5) := by
  constructor
  · intro today txns t ht
    constructor
    · intro hlt hmem
      have := (List.mem_filter.1 hmem).2
      simp [hlt] at this
    · intro heq
      refine List.mem_filter.2 ⟨ht, ?_⟩
      rw [heq, Date.ltb_irrefl (five_months_ago today)]
      simp
  · intro today
    constructor
    · rfl
    · simp only [five_months_ago]
      omega

/-- Witness for C7 on a concrete run date (2026-10-12, boundary 2026-05-01):
a transaction dated 2025-12-31 is absent after cleanup and one dated exactly
2026-05-01 is retained. -/
theorem C7_retention_cleanup_boundary_witness :
    (⟨1, "Told", "X", "n", none, 1, none, ⟨2025, 12, 31⟩, false,
      none, none, none, none⟩ : TxnRow) ∉
      cleanup_old_transactions ⟨2026, 10, 12⟩
        [⟨1, "Told", "X", "n", none, 1, none, ⟨2025, 12, 31⟩, false,
          none, none, none, none⟩,
         ⟨2, "Tbnd", "X", "n", none, 1, none, ⟨2026, 5, 1⟩, false,
          none, none, none, none⟩]
    ∧ (⟨2, "Tbnd", "X", "n", none, 1, none, ⟨2026, 5, 1⟩, false,
        none, none, none, none⟩ : TxnRow) ∈
      cleanup_old_transactions ⟨2026, 10, 12⟩
        [⟨1, "Told", "X", "n", none, 1, none, ⟨2025, 12, 31⟩, false,
          none, none, none, none⟩,
         ⟨2, "Tbnd", "X", "n", none, 1, none, ⟨2026, 5, 1⟩, false,
          none, none, none, none⟩] :=
  ⟨(C7_retention_cleanup_boundary.1 ⟨2026, 10, 12⟩ _ _ (by decide)).1 (by decide),
   (C7_retention_cleanup_boundary.1 ⟨2026, 10, 12⟩ _ _ (by decide)).2 (by decide)⟩

-- ---------------------------------------------------------------------------
-- C8: category mapping
-- ---------------------------------------------------------------------------

/-- C8: `_map_category` looks up only the first category token in the static
table and falls back to "Miscellaneous" on a miss or an empty/absent
hierarchy; in particular ["Food and Drink", "Restaurants"] maps to
"Food & Drink" and ["Bogus"] to "Miscellaneous".  The fifth conjunct states
the first-token-only behaviour (the tail never matters); the sixth is the
general lookup-then-default characterisation. -/
theorem C8_map_category_first_token :
    map_category (some ["Food and Drink", "Restaurants"]) = "Food & Drink"
    ∧ map_category (some ["Bogus"]) = "Miscellaneous"
    ∧ map_category none = "Miscellaneous"
    ∧ map_category (some []) = "Miscellaneous"
    ∧ (∀ (primary : String) (rest rest' : List String),
        map_category (some (primary :: rest))
          = map_category (some (primary :: rest')))
    ∧ (∀ (primary : String) (rest : List String),
        map_category (some (primary :: rest))
          = (bucketLookup primary).getD "Miscellaneous") := by
  refine ⟨by decide, by decide, by decide, by decide, ?_, ?_⟩
  · intro primary rest rest'
    rfl
  · intro primary rest
    show (bucketLookup primary).getD defaultBucket
      = (bucketLookup primary).getD "Miscellaneous"
    rw [show defaultBucket = "Miscellaneous" from by decide]

-- ---------------------------------------------------------------------------
-- C9: pacing of upstream price fetches in background_sync_job
-- ---------------------------------------------------------------------------

/-- Externally visible events of the price-fetch phase of
`background_sync_job` (app.py lines 54-97): an upstream stock or crypto
price fetch, or a pacing sleep. -/
inductive SyncEvent where
  | fetchStock (symbol : String)
  | fetchCrypto (symbol : String)
  | sleep (seconds : Nat)
deriving DecidableEq, Repr

/-- Whether an event is an upstream price-provider fetch. -/
def SyncEvent.isFetch : SyncEvent → Bool
  | .fetchStock _ => true
  | .fetchCrypto _ => true
  | .sleep _ => false

/-- The upstream-call trace of one iteration of the symbol loop (app.py
lines 55-97): `get_stock_price` for an investment symbol, `get_crypto_price`
for a crypto symbol, nothing otherwise.  The pacing delay that the comment
block on lines 94-97 announces ("IMPORTANT: Add Delay", "Pausing before next
fetch...") is `time.sleep(13)` on line 96 — which is commented out, so the
iteration emits NO sleep event. -/
def symbolFetchEvents (symbolAndType : String × String) : List SyncEvent :=
  if symbolAndType.2 = "investment" then [.fetchStock symbolAndType.1]
  else if symbolAndType.2 = "crypto" then [.fetchCrypto symbolAndType.1]
  else []

/-- The upstream-call trace of the whole price-fetch loop of
`background_sync_job`, over the symbols enumerated from investment/crypto
accounts (the iteration order of the Python set is abstracted as the list
order). -/
def background_sync_job_price_trace (symbols : List (String × String)) :
    List SyncEvent :=
  symbols.flatMap symbolFetchEvents

/-- The pacing property the spec asserts: between every pair of consecutive
upstream fetch events there is a sleep event — i.e. no two fetches are
adjacent in the trace. -/
def pacedBetweenFetches : List SyncEvent → Bool
  | e1 :: e2 :: rest =>
    (!(e1.isFetch && e2.isFetch)) && pacedBetweenFetches (e2 :: rest)
  | _ => true

/-- C9: with two investment symbols to price, `background_sync_job` performs
the two upstream fetches back to back with no delay between them — the
mandatory inter-call delay the spec describes does not exist in the code
(the `time.sleep(13)` on app.py line 96 is commented out, even though the
adjacent log line claims "Pausing before next fetch").  So the trace
violates the claimed pacing property. -/
theorem C9_no_pacing_delay_between_fetches :
    background_sync_job_price_trace [("AAPL", "investment"), ("MSFT", "investment")]
      = [.fetchStock "AAPL", .fetchStock "MSFT"]
    ∧ pacedBetweenFetches
        (background_sync_job_price_trace
          [("AAPL", "investment"), ("MSFT", "investment")]) = false := by
  decide

-- ---------------------------------------------------------------------------
-- Portfolio valuation engine (routes.py lines 1132-1241)
-- ---------------------------------------------------------------------------

/-- Association-list lookup, the Lean counterpart of Python `dict.get`. -/
def lookupAssoc (m : List (String × String)) (k : String) : Option String :=
  (m.find? (fun p => decide (p.1 = k))).map Prod.snd

/-- `type_mapping` (routes.py lines 1145-1150). -/
def type_mapping : List (String × String) :=
  [("depository", "cash"), ("investment", "investment"),
   ("crypto", "crypto"), ("loan", "loan")]

/-- `source_mapping` (routes.py lines 1151-1157). -/
def source_mapping : List (String × String) :=
  [("Plaid", "Bank/Broker (via Plaid)"),
   ("PlaidInvestment", "Investment (via Plaid)"),
   ("Coinbase", "Crypto (via Coinbase)"),
   ("Robinhood", "Investment/Crypto (via Robinhood)"),
   ("Manual", "Manual Entry")]

/-- `type_mapping.get(acc.account_type, 'other')` (routes.py line 1195). -/
def accCategory (acc : Account) : String :=
  (lookupAssoc type_mapping acc.accountType).getD "other"

/-- One step of the dict comprehension
`{mp.symbol: {...} for mp in cached_prices_query}` (routes.py line 1167):
a later row with the same symbol overwrites the earlier entry. -/
def upsertPriceEntry (l : List MarketPrice) (mp : MarketPrice) : List MarketPrice :=
  if l.any (fun e => decide (e.symbol = mp.symbol)) then
    l.map (fun e => if e.symbol = mp.symbol then mp else e)
  else l ++ [mp]

/-- The `price_cache` dict built from all MarketPrice rows (routes.py lines
1166-1167), as a list of entries with distinct symbols, last row winning. -/
def priceDict (cache : List MarketPrice) : List MarketPrice :=
  cache.foldl upsertPriceEntry []

/-- Dict lookup `price_cache[symbol]`. -/
def priceLookup (pd : List MarketPrice) (s : String) : Option MarketPrice :=
  pd.find? (fun e => decide (e.symbol = s))

/-- One entry of `portfolio['account_details']` (routes.py lines 1182-1193,
1215, 1226). -/
structure AccountDetail where
  id : Nat
  name : String
  balance : ℚ
  accType : String
  subtype : Option String
  sourceLabel : String
  external_id : Option String
  market_value_usd : ℚ
  price_usd : Option ℚ
  category : String
deriving DecidableEq, Repr

/-- The `portfolio` response of `get_portfolio_overview` (routes.py lines
1135-1143, 1178).  Warnings model the `logger.warning` calls of the
"no cached price" branch (line 1217). -/
structure Overview where
  total_value_usd : ℚ
  cash_total_usd : ℚ
  investment_total_usd : ℚ
  crypto_total_usd : ℚ
  other_assets_total_usd : ℚ
  loan_total_usd : ℚ
  prices_as_of : Option Nat
  account_details : List AccountDetail
  warnings : List String
deriving DecidableEq, Repr

/-- The per-account detail record, filled as in routes.py lines 1182-1196
and 1215/1226. -/
def mkDetail (acc : Account) (category : String) (mv : ℚ) (pr : Option ℚ) :
    AccountDetail :=
  { id := acc.id, name := acc.name, balance := acc.balance,
    accType := acc.accountType, subtype := acc.accountSubtype,
    sourceLabel := (lookupAssoc source_mapping acc.source).getD acc.source,
    external_id := acc.externalId,
    market_value_usd := mv, price_usd := pr, category := category }

/-- The investment/crypto pricing branch (routes.py lines 1209-1218):
given the dict, the native balance and the account subtype (= symbol),
return (market value, resolved price, optional warning).  The Python
truthiness test `if symbol and symbol in price_cache` means a `None` or
empty-string symbol silently yields market value 0 with no warning. -/
def symbolPricing (pd : List MarketPrice) (nb : ℚ) (subtype : Option String) :
    ℚ × Option ℚ × Option String :=
  match subtype with
  | some s =>
    if s ≠ "" then
      match priceLookup pd s with
      | some e => (nb * e.price_usd, some e.price_usd, none)
      | none => (0, none, some ("Price not found in cache for symbol: " ++ s))
    else (0, none, none)
  | none => (0, none, none)

/-- The body of the per-account loop (routes.py lines 1181-1227).  Accounts
with non-positive balance are skipped entirely (line 1194).  In the final
`else` branch the running `market_value_usd` variable is still 0, so the
detail records market value 0 even though the native balance is added to the
other-assets bucket — a quirk preserved from the source. -/
def processAccount (pd : List MarketPrice) (ov : Overview) (acc : Account) :
    Overview :=
  if acc.balance ≤ 0 then ov
  else
    let category := accCategory acc
    let nb := acc.balance
    if category = "cash" then
      { ov with
        cash_total_usd := ov.cash_total_usd + nb,
        account_details := ov.account_details ++ [mkDetail acc category nb none] }
    else if category = "loan" then
      { ov with
        loan_total_usd := ov.loan_total_usd + nb,
        account_details := ov.account_details ++ [mkDetail acc category nb none] }
    else if category = "investment" then
      let t := symbolPricing pd nb acc.accountSubtype
      { ov with
        investment_total_usd := ov.investment_total_usd + t.1,
        warnings := ov.warnings ++ t.2.2.toList,
        account_details := ov.account_details ++ [mkDetail acc category t.1 t.2.1] }
    else if category = "crypto" then
      let t := symbolPricing pd nb acc.accountSubtype
      { ov with
        crypto_total_usd := ov.crypto_total_usd + t.1,
        warnings := ov.warnings ++ t.2.2.toList,
        account_details := ov.account_details ++ [mkDetail acc category t.1 t.2.1] }
    else
      { ov with
        other_assets_total_usd := ov.other_assets_total_usd + nb,
        account_details := ov.account_details ++ [mkDetail acc category 0 none] }

/-- The pure computation of `get_portfolio_overview` (routes.py lines
1159-1241): build the price dict, record the oldest `last_updated` among its
values as `prices_as_of` (lines 1169-1178; `none` when the cache is empty),
fold the account loop, then set the grand total to
cash + investment + crypto + other (lines 1232-1235).  This function is
total: partial pricing never raises. -/
def computeOverview (accounts : List Account) (cache : List MarketPrice) :
    Overview :=
  let pd := priceDict cache
  let ov0 : Overview :=
    { total_value_usd := 0, cash_total_usd := 0, investment_total_usd := 0,
      crypto_total_usd := 0, other_assets_total_usd := 0, loan_total_usd := 0,
      prices_as_of := (pd.map (fun e => e.last_updated)).min?,
      account_details := [], warnings := [] }
  let ov1 := accounts.foldl (processAccount pd) ov0
  { ov1 with
    total_value_usd := ov1.cash_total_usd + ov1.investment_total_usd
      + ov1.crypto_total_usd + ov1.other_assets_total_usd }

/-- `get_portfolio_overview` (routes.py lines 1132-1241): with no accounts
the route returns an early "No accounts found" message (lines 1162-1163),
modelled as `none`. -/
def get_portfolio_overview (accounts : List Account)
    (cache : List MarketPrice) : Option Overview :=
  if accounts.isEmpty then none else some (computeOverview accounts cache)

/-- What one account adds to the cash total (0 when skipped or other
category), mirroring the branch structure of `processAccount`. -/
def cashContribution (acc : Account) : ℚ :=
  if acc.balance ≤ 0 then 0
  else if accCategory acc = "cash" then acc.balance
  else 0

/-- What one account adds to the loan total. -/
def loanContribution (acc : Account) : ℚ :=
  if acc.balance ≤ 0 then 0
  else if accCategory acc = "cash" then 0
  else if accCategory acc = "loan" then acc.balance
  else 0

/-- What one account adds to the investment total. -/
def investmentContribution (pd : List MarketPrice) (acc : Account) : ℚ :=
  if acc.balance ≤ 0 then 0
  else if accCategory acc = "cash" then 0
  else if accCategory acc = "loan" then 0
  else if accCategory acc = "investment" then
    (symbolPricing pd acc.balance acc.accountSubtype).1
  else 0

/-- What one account adds to the crypto total. -/
def cryptoContribution (pd : List MarketPrice) (acc : Account) : ℚ :=
  if acc.balance ≤ 0 then 0
  else if accCategory acc = "cash" then 0
  else if accCategory acc = "loan" then 0
  else if accCategory acc = "investment" then 0
  else if accCategory acc = "crypto" then
    (symbolPricing pd acc.balance acc.accountSubtype).1
  else 0

/-- What one account adds to the other-assets total. -/
def otherContribution (acc : Account) : ℚ :=
  if acc.balance ≤ 0 then 0
  else if accCategory acc = "cash" then 0
  else if accCategory acc = "loan" then 0
  else if accCategory acc = "investment" then 0
  else if accCategory acc = "crypto" then 0
  else acc.balance

/-- The warnings one account emits (at most one: the "no cached price"
warning of an investment/crypto account with a truthy unpriced symbol). -/
def warnContribution (pd : List MarketPrice) (acc : Account) : List String :=
  if acc.balance ≤ 0 then []
  else if accCategory acc = "cash" then []
  else if accCategory acc = "loan" then []
  else if accCategory acc = "investment" then
    (symbolPricing pd acc.balance acc.accountSubtype).2.2.toList
  else if accCategory acc = "crypto" then
    (symbolPricing pd acc.balance acc.accountSubtype).2.2.toList
  else []

/-- The detail records one account appends (none when skipped). -/
def detailContribution (pd : List MarketPrice) (acc : Account) :
    List AccountDetail :=
  if acc.balance ≤ 0 then []
  else if accCategory acc = "cash" then
    [mkDetail acc (accCategory acc) acc.balance none]
  else if accCategory acc = "loan" then
    [mkDetail acc (accCategory acc) acc.balance none]
  else if accCategory acc = "investment" then
    [mkDetail acc (accCategory acc)
      (symbolPricing pd acc.balance acc.accountSubtype).1
      (symbolPricing pd acc.balance acc.accountSubtype).2.1]
  else if accCategory acc = "crypto" then
    [mkDetail acc (accCategory acc)
      (symbolPricing pd acc.balance acc.accountSubtype).1
      (symbolPricing pd acc.balance acc.accountSubtype).2.1]
  else [mkDetail acc (accCategory acc) 0 none]

lemma processAccount_step (pd : List MarketPrice) (ov : Overview) (acc : Account) :
    processAccount pd ov acc =
      { ov with
        cash_total_usd := ov.cash_total_usd + cashContribution acc,
        loan_total_usd := ov.loan_total_usd + loanContribution acc,
        investment_total_usd :=
          ov.investment_total_usd + investmentContribution pd acc,
        crypto_total_usd := ov.crypto_total_usd + cryptoContribution pd acc,
        other_assets_total_usd :=
          ov.other_assets_total_usd + otherContribution acc,
        warnings := ov.warnings ++ warnContribution pd acc,
        account_details := ov.account_details ++ detailContribution pd acc } := by
  unfold processAccount cashContribution loanContribution investmentContribution
    cryptoContribution otherContribution warnContribution detailContribution
  split_ifs <;> simp [*]

lemma foldl_processAccount (pd : List MarketPrice) :
    ∀ (accs : List Account) (ov : Overview),
      accs.foldl (processAccount pd) ov =
        { ov with
          cash_total_usd := ov.cash_total_usd + (accs.map cashContribution).sum,
          loan_total_usd := ov.loan_total_usd + (accs.map loanContribution).sum,
          investment_total_usd := ov.investment_total_usd
            + (accs.map (investmentContribution pd)).sum,
          crypto_total_usd := ov.crypto_total_usd
            + (accs.map (cryptoContribution pd)).sum,
          other_assets_total_usd := ov.other_assets_total_usd
            + (accs.map otherContribution).sum,
          warnings := ov.warnings ++ accs.flatMap (warnContribution pd),
          account_details := ov.account_details
            ++ accs.flatMap (detailContribution pd) } := by
  intro accs
  induction accs with
  | nil => intro ov; simp
  | cons a accs ih =>
    intro ov
    rw [List.foldl_cons, processAccount_step, ih]
    simp [add_assoc]

-- ---------------------------------------------------------------------------
-- C6: grand total = cash + investment + crypto + other; loans excluded
-- ---------------------------------------------------------------------------

/-- C6: the overview's grand total equals the sum of the cash, investment,
crypto and other-assets category totals (first conjunct), and the loan
category total is never part of it: prepending any loan-typed account leaves
the grand total unchanged while the loan total (separately reported) grows
by that account's positive balance (second conjunct). -/
theorem C6_total_sum_excludes_loans :
    (∀ (accounts : List Account) (cache : List MarketPrice) (o : Overview),
       get_portfolio_overview accounts cache = some o →
       o.total_value_usd = o.cash_total_usd + o.investment_total_usd
         + o.crypto_total_usd + o.other_assets_total_usd)
    ∧ (∀ (a : Account) (accounts : List Account) (cache : List MarketPrice),
        a.accountType = "loan" →
        (computeOverview (a :: accounts) cache).total_value_usd
          = (computeOverview accounts cache).total_value_usd
        ∧ (computeOverview (a :: accounts) cache).loan_total_usd
          = (computeOverview accounts cache).loan_total_usd
            + (if a.balance ≤ 0 then 0 else a.balance)) := by
  constructor
  · intro accounts cache o h
    unfold get_portfolio_overview at h
    split at h
    · simp at h
    · simp only [Option.some.injEq] at h
      rw [← h]
      simp [computeOverview]
  · intro a accounts cache ha
    have hcat : accCategory a = "loan" := by
      simp [accCategory, lookupAssoc, type_mapping, ha]
    constructor
    · simp only [computeOverview, foldl_processAccount, List.map_cons,
        List.sum_cons]
      have h1 : cashContribution a = 0 := by
        unfold cashContribution; rw [hcat]; split_ifs <;> simp_all
      have h2 : investmentContribution (priceDict cache) a = 0 := by
        unfold investmentContribution; rw [hcat]; split_ifs <;> simp_all
      have h3 : cryptoContribution (priceDict cache) a = 0 := by
        unfold cryptoContribution; rw [hcat]; split_ifs <;> simp_all
      have h4 : otherContribution a = 0 := by
        unfold otherContribution; rw [hcat]; split_ifs <;> simp_all
      rw [h1, h2, h3, h4]
      ring
    · simp only [computeOverview, foldl_processAccount, List.map_cons,
        List.sum_cons]
      have h5 : loanContribution a = (if a.balance ≤ 0 then 0 else a.balance) := by
        unfold loanContribution; rw [hcat]; split_ifs <;> simp_all
      rw [h5]
      ring

/-- Witness for C6 on a concrete mixed state: one checking account, one
priced investment account and one loan. -/
theorem C6_total_sum_excludes_loans_witness :
    ((get_portfolio_overview
        [⟨1, "Checking", "Plaid", "depository", some "checking", some "E1", 100⟩,
         ⟨2, "AAPL", "Robinhood", "investment", some "AAPL", some "E2", 2⟩]
        [⟨"AAPL", 10, 100⟩]).getD
          (computeOverview [] [])).total_value_usd
      = ((get_portfolio_overview
        [⟨1, "Checking", "Plaid", "depository", some "checking", some "E1", 100⟩,
         ⟨2, "AAPL", "Robinhood", "investment", some "AAPL", some "E2", 2⟩]
        [⟨"AAPL", 10, 100⟩]).getD (computeOverview [] [])).cash_total_usd
        + ((get_portfolio_overview
        [⟨1, "Checking", "Plaid", "depository", some "checking", some "E1", 100⟩,
         ⟨2, "AAPL", "Robinhood", "investment", some "AAPL", some "E2", 2⟩]
        [⟨"AAPL", 10, 100⟩]).getD (computeOverview [] [])).investment_total_usd
        + ((get_portfolio_overview
        [⟨1, "Checking", "Plaid", "depository", some "checking", some "E1", 100⟩,
         ⟨2, "AAPL", "Robinhood", "investment", some "AAPL", some "E2", 2⟩]
        [⟨"AAPL", 10, 100⟩]).getD (computeOverview [] [])).crypto_total_usd
        + ((get_portfolio_overview
        [⟨1, "Checking", "Plaid", "depository", some "checking", some "E1", 100⟩,
         ⟨2, "AAPL", "Robinhood", "investment", some "AAPL", some "E2", 2⟩]
        [⟨"AAPL", 10, 100⟩]).getD (computeOverview [] [])).other_assets_total_usd
    ∧ (computeOverview
        [⟨3, "Car loan", "Plaid", "loan", some "auto", some "E3", 5000⟩,
         ⟨1, "Checking", "Plaid", "depository", some "checking", some "E1", 100⟩]
        []).total_value_usd
      = (computeOverview
        [⟨1, "Checking", "Plaid", "depository", some "checking", some "E1", 100⟩]
        []).total_value_usd :=
  ⟨C6_total_sum_excludes_loans.1
      [⟨1, "Checking", "Plaid", "depository", some "checking", some "E1", 100⟩,
       ⟨2, "AAPL", "Robinhood", "investment", some "AAPL", some "E2", 2⟩]
      [⟨"AAPL", 10, 100⟩] _ rfl,
   (C6_total_sum_excludes_loans.2
      ⟨3, "Car loan", "Plaid", "loan", some "auto", some "E3", 5000⟩
      [⟨1, "Checking", "Plaid", "depository", some "checking", some "E1", 100⟩]
      [] rfl).1⟩

-- ---------------------------------------------------------------------------
-- C4: the prices_as_of staleness indicator
-- ---------------------------------------------------------------------------

/-- Spec-side definition, following the claim's words (not the code): the
symbols whose cached prices are actually *used* to value accounts — the
truthy subtypes of processed (positive-balance) investment/crypto
accounts. -/
def usedSymbols (accounts : List Account) : List String :=
  accounts.filterMap (fun a =>
    if a.balance ≤ 0 then none
    else if accCategory a = "investment" ∨ accCategory a = "crypto" then
      match a.accountSubtype with
      | some s => if s ≠ "" then some s else none
      | none => none
    else none)

/-- Spec-side definition, following the claim's words: the oldest
last-updated timestamp among the cached prices actually used to value
accounts in the overview. -/
def oldestUsedPriceTime (accounts : List Account) (cache : List MarketPrice) :
    Option Nat :=
  (((priceDict cache).filter
      (fun e => (usedSymbols accounts).contains e.symbol)).map
    (fun e => e.last_updated)).min?

/-- C4 counterexample: one priced investment account using symbol "A"
(timestamp 100) while the cache also holds an unused price "B" with an older
timestamp 50.  The code's `prices_as_of` is 50 — the minimum over ALL cached
prices — not the 100 the claim demands (oldest among prices actually
used). -/
theorem C4_counterexample :
    (computeOverview
        [⟨1, "AAPL", "Robinhood", "investment", some "A", some "E1", 1⟩]
        [⟨"A", 10, 100⟩, ⟨"B", 5, 50⟩]).prices_as_of = some 50
    ∧ oldestUsedPriceTime
        [⟨1, "AAPL", "Robinhood", "investment", some "A", some "E1", 1⟩]
        [⟨"A", 10, 100⟩, ⟨"B", 5, 50⟩] = some 100
    ∧ (50 : Nat) ≠ 100 := by
  refine ⟨?_, ?_, by decide⟩
  · rfl
  · rfl

/-- C4 (amended): `prices_as_of` equals the oldest last-updated timestamp
among ALL cached prices (every entry of the price dict built from the
MarketPrice table), whether or not any account uses them — in particular it
does not depend on the account set at all (second conjunct); it is absent
exactly when the cache is empty. -/
theorem C4_prices_as_of_amended
    (accounts : List Account) (cache : List MarketPrice) (o : Overview)
    (h : get_portfolio_overview accounts cache = some o) :
    o.prices_as_of = ((priceDict cache).map (fun e => e.last_updated)).min?
    ∧ ∀ (accounts2 : List Account) (o2 : Overview),
        get_portfolio_overview accounts2 cache = some o2 →
        o2.prices_as_of = o.prices_as_of := by
  have key : ∀ (accs : List Account) (o' : Overview),
      get_portfolio_overview accs cache = some o' →
      o'.prices_as_of = ((priceDict cache).map (fun e => e.last_updated)).min? := by
    intro accs o' h'
    unfold get_portfolio_overview at h'
    split at h'
    · simp at h'
    · simp only [Option.some.injEq] at h'
      rw [← h']
      simp [computeOverview, foldl_processAccount]
  refine ⟨key accounts o h, ?_⟩
  intro accounts2 o2 h2
  rw [key accounts2 o2 h2, key accounts o h]

/-- Witness for the amended C4 at the counterexample's input. -/
theorem C4_prices_as_of_amended_witness :
    (computeOverview
        [⟨1, "AAPL", "Robinhood", "investment", some "A", some "E1", 1⟩]
        [⟨"A", 10, 100⟩, ⟨"B", 5, 50⟩]).prices_as_of
      = ((priceDict [⟨"A", 10, 100⟩, ⟨"B", 5, 50⟩]).map
          (fun e => e.last_updated)).min? :=
  (C4_prices_as_of_amended
    [⟨1, "AAPL", "Robinhood", "investment", some "A", some "E1", 1⟩]
    [⟨"A", 10, 100⟩, ⟨"B", 5, 50⟩]
    (computeOverview
      [⟨1, "AAPL", "Robinhood", "investment", some "A", some "E1", 1⟩]
      [⟨"A", 10, 100⟩, ⟨"B", 5, 50⟩]) rfl).1

-- ---------------------------------------------------------------------------
-- C5: valuation with partial prices
-- ---------------------------------------------------------------------------

/-- An investment/crypto account whose pricing resolved no cached price. -/
def unpricedInvCrypto (pd : List MarketPrice) (a : Account) : Bool :=
  (decide (accCategory a = "investment") || decide (accCategory a = "crypto"))
    && !(symbolPricing pd a.balance a.accountSubtype).2.1.isSome

lemma symbolPricing_mv_zero_of_noprice (pd : List MarketPrice) (nb : ℚ)
    (st : Option String)
    (h : (symbolPricing pd nb st).2.1.isSome = false) :
    (symbolPricing pd nb st).1 = 0 := by
  cases st with
  | none => rfl
  | some s =>
    by_cases hs : s ≠ ""
    · cases hl : priceLookup pd s with
      | none => simp [symbolPricing, hs, hl]
      | some e => exfalso; simp [symbolPricing, hs, hl] at h
    · simp [symbolPricing, hs]

lemma sum_map_filter_eq (f : Account → ℚ) (p : Account → Bool) :
    ∀ (l : List Account), (∀ x ∈ l, p x = false → f x = 0) →
      ((l.filter p).map f).sum = (l.map f).sum := by
  intro l
  induction l with
  | nil => intro _; rfl
  | cons a l ih =>
    intro h
    have ht : ∀ x ∈ l, p x = false → f x = 0 :=
      fun x hx => h x (List.mem_cons_of_mem a hx)
    by_cases hp : p a = true
    · simp [List.filter_cons, hp, ih ht]
    · have hz : f a = 0 := h a (List.mem_cons_self a l) (by simpa using hp)
      simp [List.filter_cons, hp, hz, ih ht]

/-- C5 counterexample: an investment account with symbol "X", no cached
price for "X", yet the overview records NO warning — because the account's
balance is 0 and the loop skips non-positive balances (routes.py line 1194)
before the pricing branch is reached.  So "a warning is recorded for each
unpriced investment/crypto account" is false as universally stated. -/
theorem C5_counterexample :
    (computeOverview
        [⟨1, "X", "Robinhood", "investment", some "X", some "E1", 0⟩]
        []).warnings = []
    ∧ accCategory ⟨1, "X", "Robinhood", "investment", some "X", some "E1", 0⟩
        = "investment"
    ∧ priceLookup (priceDict []) "X" = none := by
  refine ⟨rfl, ?_, rfl⟩
  rfl

/-- C5 (amended): `computeOverview` is a total function — partial pricing
never raises — and for every unpriced investment/crypto account *with
positive balance and a present, non-empty symbol*: the "no cached price"
warning is recorded for it, its detail row carries market value 0 and no
resolved price, and the investment and crypto totals are unchanged when all
unpriced investment/crypto accounts are dropped — the totals reflect only
the accounts whose symbols have cached prices (the empty cache included).
Accounts with non-positive balance are skipped before any warning is
recorded, and symbol-less accounts contribute 0 silently. -/
theorem C5_partial_prices_amended
    (accounts : List Account) (cache : List MarketPrice) (o : Overview)
    (a : Account) (s : String)
    (ho : get_portfolio_overview accounts cache = some o)
    (ha : a ∈ accounts) (hbal : 0 < a.balance)
    (hcat : accCategory a = "investment" ∨ accCategory a = "crypto")
    (hs : a.accountSubtype = some s) (hne : s ≠ "")
    (hmiss : priceLookup (priceDict cache) s = none) :
    ("Price not found in cache for symbol: " ++ s) ∈ o.warnings
    ∧ mkDetail a (accCategory a) 0 none ∈ o.account_details
    ∧ o.investment_total_usd
        = (computeOverview
            (accounts.filter (fun x => !unpricedInvCrypto (priceDict cache) x))
            cache).investment_total_usd
    ∧ o.crypto_total_usd
        = (computeOverview
            (accounts.filter (fun x => !unpricedInvCrypto (priceDict cache) x))
            cache).crypto_total_usd := by
  have hoeq : o = computeOverview accounts cache := by
    unfold get_portfolio_overview at ho
    split at ho
    · simp at ho
    · simp only [Option.some.injEq] at ho; rw [ho]
  have hsp : symbolPricing (priceDict cache) a.balance a.accountSubtype
      = (0, none, some ("Price not found in cache for symbol: " ++ s)) := by
    simp [symbolPricing, hs, hne, hmiss]
  have hnotle : ¬ a.balance ≤ 0 := not_le.2 hbal
  have hci : accCategory a ≠ "cash" := by
    rcases hcat with hc | hc <;> rw [hc] <;> decide
  have hln : accCategory a ≠ "loan" := by
    rcases hcat with hc | hc <;> rw [hc] <;> decide
  have hwarn : warnContribution (priceDict cache) a
      = ["Price not found in cache for symbol: " ++ s] := by
    unfold warnContribution
    rw [if_neg hnotle, if_neg hci, if_neg hln]
    rcases hcat with hc | hc
    · rw [if_pos hc, hsp]; rfl
    · have hni : accCategory a ≠ "investment" := by rw [hc]; decide
      rw [if_neg hni, if_pos hc, hsp]; rfl
  have hdet : detailContribution (priceDict cache) a
      = [mkDetail a (accCategory a) 0 none] := by
    unfold detailContribution
    rw [if_neg hnotle, if_neg hci, if_neg hln]
    rcases hcat with hc | hc
    · rw [if_pos hc, hsp]
    · have hni : accCategory a ≠ "investment" := by rw [hc]; decide
      rw [if_neg hni, if_pos hc, hsp]
  have hzero : ∀ x ∈ accounts,
      (!unpricedInvCrypto (priceDict cache) x) = false →
      investmentContribution (priceDict cache) x = 0
        ∧ cryptoContribution (priceDict cache) x = 0 := by
    intro x _ hx
    have hup : unpricedInvCrypto (priceDict cache) x = true := by
      simpa using hx
    unfold unpricedInvCrypto at hup
    simp only [Bool.and_eq_true, Bool.or_eq_true, decide_eq_true_eq,
      Bool.not_eq_true'] at hup
    have hmv : (symbolPricing (priceDict cache) x.balance x.accountSubtype).1 = 0 :=
      symbolPricing_mv_zero_of_noprice _ _ _ hup.2
    constructor
    · unfold investmentContribution
      split_ifs <;> first | rfl | exact hmv
    · unfold cryptoContribution
      split_ifs <;> first | rfl | exact hmv
  subst hoeq
  refine ⟨?_, ?_, ?_, ?_⟩
  · show _ ∈ (computeOverview accounts cache).warnings
    simp only [computeOverview, foldl_processAccount, List.nil_append]
    exact List.mem_flatMap.2 ⟨a, ha, by rw [hwarn]; exact List.mem_singleton.2 rfl⟩
  · show _ ∈ (computeOverview accounts cache).account_details
    simp only [computeOverview, foldl_processAccount, List.nil_append]
    exact List.mem_flatMap.2 ⟨a, ha, by rw [hdet]; exact List.mem_singleton.2 rfl⟩
  · simp only [computeOverview, foldl_processAccount, zero_add]
    exact (sum_map_filter_eq (investmentContribution (priceDict cache)) _
      accounts (fun x hx hpx => (hzero x hx hpx).1)).symm
  · simp only [computeOverview, foldl_processAccount, zero_add]
    exact (sum_map_filter_eq (cryptoContribution (priceDict cache)) _
      accounts (fun x hx hpx => (hzero x hx hpx).2)).symm

/-- Witness for the amended C5: three investment accounts, two priced
symbols, one ("TSLA") unpriced — the spec's own test scenario. -/
theorem C5_partial_prices_amended_witness :
    ("Price not found in cache for symbol: " ++ "TSLA") ∈
      (computeOverview
        [⟨1, "AAPL", "Robinhood", "investment", some "AAPL", some "E1", 2⟩,
         ⟨2, "MSFT", "Robinhood", "investment", some "MSFT", some "E2", 3⟩,
         ⟨3, "TSLA", "Robinhood", "investment", some "TSLA", some "E3", 1⟩]
        [⟨"AAPL", 10, 100⟩, ⟨"MSFT", 20, 90⟩]).warnings
    ∧ mkDetail ⟨3, "TSLA", "Robinhood", "investment", some "TSLA", some "E3", 1⟩
        (accCategory ⟨3, "TSLA", "Robinhood", "investment", some "TSLA", some "E3", 1⟩)
        0 none ∈
      (computeOverview
        [⟨1, "AAPL", "Robinhood", "investment", some "AAPL", some "E1", 2⟩,
         ⟨2, "MSFT", "Robinhood", "investment", some "MSFT", some "E2", 3⟩,
         ⟨3, "TSLA", "Robinhood", "investment", some "TSLA", some "E3", 1⟩]
        [⟨"AAPL", 10, 100⟩, ⟨"MSFT", 20, 90⟩]).account_details
    ∧ (computeOverview
        [⟨1, "AAPL", "Robinhood", "investment", some "AAPL", some "E1", 2⟩,
         ⟨2, "MSFT", "Robinhood", "investment", some "MSFT", some "E2", 3⟩,
         ⟨3, "TSLA", "Robinhood", "investment", some "TSLA", some "E3", 1⟩]
        [⟨"AAPL", 10, 100⟩, ⟨"MSFT", 20, 90⟩]).investment_total_usd
      = (computeOverview
          (List.filter
            (fun x => !unpricedInvCrypto
              (priceDict [⟨"AAPL", 10, 100⟩, ⟨"MSFT", 20, 90⟩]) x)
            [⟨1, "AAPL", "Robinhood", "investment", some "AAPL", some "E1", 2⟩,
             ⟨2, "MSFT", "Robinhood", "investment", some "MSFT", some "E2", 3⟩,
             ⟨3, "TSLA", "Robinhood", "investment", some "TSLA", some "E3", 1⟩])
          [⟨"AAPL", 10, 100⟩, ⟨"MSFT", 20, 90⟩]).investment_total_usd
    ∧ (computeOverview
        [⟨1, "AAPL", "Robinhood", "investment", some "AAPL", some "E1", 2⟩,
         ⟨2, "MSFT", "Robinhood", "investment", some "MSFT", some "E2", 3⟩,
         ⟨3, "TSLA", "Robinhood", "investment", some "TSLA", some "E3", 1⟩]
        [⟨"AAPL", 10, 100⟩, ⟨"MSFT", 20, 90⟩]).crypto_total_usd
      = (computeOverview
          (List.filter
            (fun x => !unpricedInvCrypto
              (priceDict [⟨"AAPL", 10, 100⟩, ⟨"MSFT", 20, 90⟩]) x)
            [⟨1, "AAPL", "Robinhood", "investment", some "AAPL", some "E1", 2⟩,
             ⟨2, "MSFT", "Robinhood", "investment", some "MSFT", some "E2", 3⟩,
             ⟨3, "TSLA", "Robinhood", "investment", some "TSLA", some "E3", 1⟩])
          [⟨"AAPL", 10, 100⟩, ⟨"MSFT", 20, 90⟩]).crypto_total_usd :=
  C5_partial_prices_amended
    [⟨1, "AAPL", "Robinhood", "investment", some "AAPL", some "E1", 2⟩,
     ⟨2, "MSFT", "Robinhood", "investment", some "MSFT", some "E2", 3⟩,
     ⟨3, "TSLA", "Robinhood", "investment", some "TSLA", some "E3", 1⟩]
    [⟨"AAPL", 10, 100⟩, ⟨"MSFT", 20, 90⟩]
    (computeOverview
      [⟨1, "AAPL", "Robinhood", "investment", some "AAPL", some "E1", 2⟩,
       ⟨2, "MSFT", "Robinhood", "investment", some "MSFT", some "E2", 3⟩,
       ⟨3, "TSLA", "Robinhood", "investment", some "TSLA", some "E3", 1⟩]
      [⟨"AAPL", 10, 100⟩, ⟨"MSFT", 20, 90⟩])
    ⟨3, "TSLA", "Robinhood", "investment", some "TSLA", some "E3", 1⟩ "TSLA"
    rfl (by decide) (by decide) (Or.inl rfl) rfl (by decide) rfl

-- ---------------------------------------------------------------------------
-- Account reconcilers (routes.py lines 207-243 and 955-996)
-- ---------------------------------------------------------------------------

/-- Python string truthiness: `None` and `""` are falsy. -/
def truthyStr : Option String → Option String
  | some s => if s = "" then none else some s
  | none => none

/-- `Account.query.filter_by(external_id=eid, source=src).first()`'s match
predicate. -/
def accKey (eid src : String) (a : Account) : Bool :=
  decide (a.externalId = some eid) && decide (a.source = src)

/-- Mutating the single object returned by `.first()`: rewrite the first
matching element of the session state, leave everything else alone. -/
def updateFirst (p : Account → Bool) (f : Account → Account) :
    List Account → List Account
  | [] => []
  | x :: xs => if p x then f x :: xs else x :: updateFirst p f xs

lemma find?_updateFirst_self (p : Account → Bool) (f : Account → Account)
    (hp : ∀ x, p (f x) = p x) :
    ∀ l : List Account,
      List.find? p (updateFirst p f l) = (List.find? p l).map f := by
  intro l
  induction l with
  | nil => rfl
  | cons x xs ih =>
    by_cases hx : p x = true
    · simp [updateFirst, hx, List.find?_cons, hp x]
    · have hx' : p x = false := by simpa using hx
      simp [updateFirst, hx', List.find?_cons, ih]

lemma find?_updateFirst_disjoint (p q : Account → Bool) (f : Account → Account)
    (hp : ∀ x, p (f x) = p x) (hdisj : ∀ x, p x = true → q x = false) :
    ∀ l : List Account, List.find? p (updateFirst q f l) = List.find? p l := by
  intro l
  induction l with
  | nil => rfl
  | cons x xs ih =>
    by_cases hq : q x = true
    · have hpx : p x = false := by
        by_contra hc
        have := hdisj x (by simpa using hc)
        rw [this] at hq; exact Bool.false_ne_true hq
      have hpfx : p (f x) = false := by rw [hp x]; exact hpx
      simp [updateFirst, hq, List.find?_cons, hpfx, hpx]
    · have hq' : q x = false := by simpa using hq
      by_cases hpx : p x = true
      · simp [updateFirst, hq', List.find?_cons, hpx]
      · have hpx' : p x = false := by simpa using hpx
        simp [updateFirst, hq', List.find?_cons, hpx', ih]

lemma updateFirst_self (p : Account → Bool) (f : Account → Account) :
    ∀ (l : List Account) (a : Account), List.find? p l = some a → f a = a →
      updateFirst p f l = l := by
  intro l
  induction l with
  | nil => intro a h _; simp at h
  | cons x xs ih =>
    intro a h hfa
    by_cases hx : p x = true
    · rw [List.find?_cons_of_pos _ hx] at h
      simp only [Option.some.injEq] at h
      subst h
      simp [updateFirst, hx, hfa]
    · have hx' : p x = false := by simpa using hx
      rw [List.find?_cons_of_neg _ (by simp [hx'])] at h
      simp [updateFirst, hx', ih a h hfa]

lemma find?_append_left (p : Account → Bool) (l l' : List Account)
    (a : Account) (h : List.find? p l = some a) :
    List.find? p (l ++ l') = some a := by
  induction l with
  | nil => simp at h
  | cons x xs ih =>
    by_cases hx : p x = true
    · rw [List.find?_cons_of_pos _ hx] at h
      simp [List.find?_cons, hx, h]
    · have hx' : p x = false := by simpa using hx
      rw [List.find?_cons_of_neg _ (by simp [hx'])] at h
      simp only [List.cons_append]
      rw [List.find?_cons_of_neg _ (by simp [hx']), ih h]

lemma find?_append_of_none (p : Account → Bool) (l l' : List Account)
    (h : List.find? p l = none) :
    List.find? p (l ++ l') = List.find? p l' := by
  induction l with
  | nil => rfl
  | cons x xs ih =>
    by_cases hx : p x = true
    · rw [List.find?_cons_of_pos _ hx] at h; simp at h
    · have hx' : p x = false := by simpa using hx
      rw [List.find?_cons_of_neg _ (by simp [hx'])] at h
      simp only [List.cons_append]
      rw [List.find?_cons_of_neg _ (by simp [hx'])]
      exact ih h

lemma countP_updateFirst (p q : Account → Bool) (f : Account → Account)
    (hp : ∀ x, p (f x) = p x) :
    ∀ l : List Account, (updateFirst q f l).countP p = l.countP p := by
  intro l
  induction l with
  | nil => rfl
  | cons x xs ih =>
    by_cases hq : q x = true
    · simp [updateFirst, hq, List.countP_cons, hp x]
    · have hq' : q x = false := by simpa using hq
      simp [updateFirst, hq', List.countP_cons, ih]

/-- One Robinhood position as the brokerage client returns it (routes.py
lines 955-972).  `quantity` is the already-parsed numeric value; `none`
stands for a missing or unparseable quantity, which the code maps to 0.0.
`ptype` is `pos.get('type', 'investment')` with `none` = key absent. -/
structure RHPosition where
  id : Option String
  quantity : Option ℚ
  symbol : Option String
  ptype : Option String
deriving DecidableEq, Repr

/-- The in-place update of an existing Robinhood account (routes.py lines
977-982): `balance = quantity`, `name = symbol or account.name`. -/
def rhUpdate (pos : RHPosition) (a : Account) : Account :=
  { a with
    balance := pos.quantity.getD 0,
    name := match truthyStr pos.symbol with
            | some s => s
            | none => a.name }

/-- The new account created for an unseen position (routes.py lines
984-996). -/
def rhCreate (pos : RHPosition) (eid : String) (nid : Nat) : Account :=
  { id := nid,
    name := (truthyStr pos.symbol).getD
      ("RH_" ++ pos.ptype.getD "investment" ++ "_" ++ eid),
    source := "Robinhood",
    accountType := if pos.ptype.getD "investment" = "crypto" then "crypto"
                   else "investment",
    accountSubtype := pos.symbol,
    externalId := some eid,
    balance := pos.quantity.getD 0 }

def sync_robinhood_one (st : List Account × Nat) (pos : RHPosition) :
    List Account × Nat :=
  match truthyStr pos.id with
  | none => st
  | some eid =>
    if (st.1.find? (accKey eid "Robinhood")).isSome then
      (updateFirst (accKey eid "Robinhood") (rhUpdate pos) st.1, st.2)
    else
      (st.1 ++ [rhCreate pos eid st.2], st.2 + 1)

/-- `sync_robinhood_portfolio` (routes.py lines 940-1018): the whole
positions loop. -/
def sync_robinhood_portfolio (positions : List RHPosition)
    (st : List Account × Nat) : List Account × Nat :=
  positions.foldl sync_robinhood_one st

/-- One provider account record from `accounts_get`, as consumed by the
Plaid account reconciler (routes.py lines 207-221).  `subtype_str` is the
already-computed `account_subtype_str`; `current`/`available` are the two
balance candidates. -/
structure PlaidAccountData where
  account_id : String
  pname : String
  ptype : String
  subtype_str : Option String
  current : Option ℚ
  available : Option ℚ
deriving DecidableEq, Repr

/-- Balance resolution (routes.py lines 219-221): `current`, else
`available`, else 0.0. -/
def plaidBalance (pa : PlaidAccountData) : ℚ :=
  ((pa.current).orElse (fun _ => pa.available)).getD 0

/-- The in-place update of an existing Plaid account (routes.py lines
223-231): name and balance are overwritten unless the account is
investment-typed (those are managed by the holdings phase). -/
def plaidUpdate (pa : PlaidAccountData) (a : Account) : Account :=
  if a.accountType ≠ "investment" then
    { a with name := pa.pname, balance := plaidBalance pa }
  else a

/-- The new account created for an unseen non-investment provider account
(routes.py lines 232-243). -/
def plaidCreate (pa : PlaidAccountData) (nid : Nat) : Account :=
  { id := nid, name := pa.pname, source := "Plaid",
    accountType := pa.ptype, accountSubtype := pa.subtype_str,
    externalId := some pa.account_id,
    balance := plaidBalance pa }

def sync_plaid_accounts_one (st : List Account × Nat) (pa : PlaidAccountData) :
    List Account × Nat :=
  if (st.1.find? (accKey pa.account_id "Plaid")).isSome then
    (updateFirst (accKey pa.account_id "Plaid") (plaidUpdate pa) st.1, st.2)
  else if pa.ptype ≠ "investment" then
    (st.1 ++ [plaidCreate pa st.2], st.2 + 1)
  else st

/-- The basic-accounts phase of `sync_plaid_accounts` over a provider
response. -/
def sync_plaid_accounts (pas : List PlaidAccountData)
    (st : List Account × Nat) : List Account × Nat :=
  pas.foldl sync_plaid_accounts_one st

lemma accKey_rhUpdate (e s : String) (pos : RHPosition) (a : Account) :
    accKey e s (rhUpdate pos a) = accKey e s a := rfl

lemma accKey_plaidUpdate (e s : String) (pa : PlaidAccountData) (a : Account) :
    accKey e s (plaidUpdate pa a) = accKey e s a := by
  unfold plaidUpdate
  split <;> rfl

lemma accKey_disjoint (e s e' s' : String) (h : e ≠ e' ∨ s ≠ s') :
    ∀ x, accKey e s x = true → accKey e' s' x = false := by
  intro x hx
  simp only [accKey, Bool.and_eq_true, decide_eq_true_eq] at hx
  rcases h with h | h
  · simp only [accKey, Bool.and_eq_false_iff]
    left
    simp only [decide_eq_false_iff_not]
    rw [hx.1]
    simp [h]
  · simp only [accKey, Bool.and_eq_false_iff]
    right
    simp only [decide_eq_false_iff_not]
    rw [hx.2]
    exact h

lemma sync_robinhood_one_skip (st : List Account × Nat) (pos : RHPosition)
    (h : truthyStr pos.id = none) : sync_robinhood_one st pos = st := by
  unfold sync_robinhood_one
  rw [h]

lemma sync_robinhood_one_eq (st : List Account × Nat) (pos : RHPosition)
    (eid : String) (h : truthyStr pos.id = some eid) :
    sync_robinhood_one st pos =
      if (st.1.find? (accKey eid "Robinhood")).isSome then
        (updateFirst (accKey eid "Robinhood") (rhUpdate pos) st.1, st.2)
      else (st.1 ++ [rhCreate pos eid st.2], st.2 + 1) := by
  unfold sync_robinhood_one
  rw [h]

/-- After all records are applied, replaying a position is a no-op; this is
the state predicate that makes it so: the first matching account already
carries the position's quantity and (when the symbol is truthy) its
symbol as name. -/
def rhReplayFix (pos : RHPosition) (db : List Account) : Prop :=
  ∀ eid, truthyStr pos.id = some eid →
    ∃ a, db.find? (accKey eid "Robinhood") = some a
      ∧ a.balance = pos.quantity.getD 0
      ∧ ∀ s, truthyStr pos.symbol = some s → a.name = s

lemma rhReplayFix_self (st : List Account × Nat) (pos : RHPosition) :
    rhReplayFix pos (sync_robinhood_one st pos).1 := by
  intro eid heid
  rw [sync_robinhood_one_eq st pos eid heid]
  by_cases hf : (st.1.find? (accKey eid "Robinhood")).isSome = true
  · rw [if_pos hf]
    obtain ⟨a0, ha0⟩ := Option.isSome_iff_exists.1 hf
    refine ⟨rhUpdate pos a0, ?_, ?_, ?_⟩
    · rw [find?_updateFirst_self _ _ (fun x => accKey_rhUpdate _ _ pos x) st.1,
        ha0]
      rfl
    · rfl
    · intro s hs
      unfold rhUpdate
      rw [hs]
  · rw [if_neg hf]
    have hnone : st.1.find? (accKey eid "Robinhood") = none :=
      Option.not_isSome_iff_eq_none.1 hf
    refine ⟨rhCreate pos eid st.2, ?_, rfl, ?_⟩
    · rw [find?_append_of_none _ _ _ hnone]
      have : accKey eid "Robinhood" (rhCreate pos eid st.2) = true := by
        simp [accKey, rhCreate]
      simp [List.find?_cons, this]
    · intro s hs
      unfold rhCreate
      rw [hs]
      rfl

lemma rhReplayFix_other (st : List Account × Nat) (pos q : RHPosition)
    (hne : ∀ eid eid', truthyStr pos.id = some eid →
      truthyStr q.id = some eid' → eid' ≠ eid)
    (hfix : rhReplayFix pos st.1) :
    rhReplayFix pos (sync_robinhood_one st q).1 := by
  intro eid heid
  obtain ⟨a, ha, hb, hn⟩ := hfix eid heid
  cases hqid : truthyStr q.id with
  | none => rw [sync_robinhood_one_skip st q hqid]; exact ⟨a, ha, hb, hn⟩
  | some eid' =>
    rw [sync_robinhood_one_eq st q eid' hqid]
    have hne' : eid ≠ eid' := fun hc => hne eid eid' heid hqid hc.symm
    by_cases hf : (st.1.find? (accKey eid' "Robinhood")).isSome = true
    · rw [if_pos hf]
      refine ⟨a, ?_, hb, hn⟩
      rw [find?_updateFirst_disjoint (accKey eid "Robinhood")
        (accKey eid' "Robinhood") (rhUpdate q)
        (fun x => accKey_rhUpdate _ _ q x)
        (accKey_disjoint eid "Robinhood" eid' "Robinhood" (Or.inl hne')) st.1]
      exact ha
    · rw [if_neg hf]
      exact ⟨a, find?_append_left _ _ _ a ha, hb, hn⟩

lemma rhReplayFix_fold (pos : RHPosition) :
    ∀ (qs : List RHPosition) (st : List Account × Nat),
      (∀ q ∈ qs, ∀ eid eid', truthyStr pos.id = some eid →
        truthyStr q.id = some eid' → eid' ≠ eid) →
      rhReplayFix pos st.1 →
      rhReplayFix pos (sync_robinhood_portfolio qs st).1 := by
  intro qs
  induction qs with
  | nil => intro st _ hfix; exact hfix
  | cons q qs ih =>
    intro st hq hfix
    exact ih (sync_robinhood_one st q)
      (fun r hr => hq r (List.mem_cons_of_mem q hr))
      (rhReplayFix_other st pos q (hq q (List.mem_cons_self q qs)) hfix)

lemma rhUpdate_eq_self (pos : RHPosition) (a : Account)
    (hb : a.balance = pos.quantity.getD 0)
    (hn : ∀ s, truthyStr pos.symbol = some s → a.name = s) :
    rhUpdate pos a = a := by
  unfold rhUpdate
  cases hs : truthyStr pos.symbol with
  | none => rw [← hb]
  | some s => rw [← hb, ← hn s hs]

lemma rhReplay_noop (st : List Account × Nat) (pos : RHPosition)
    (hfix : rhReplayFix pos st.1) :
    sync_robinhood_one st pos = st := by
  cases hid : truthyStr pos.id with
  | none => exact sync_robinhood_one_skip st pos hid
  | some eid =>
    obtain ⟨a, ha, hb, hn⟩ := hfix eid hid
    have hf : (st.1.find? (accKey eid "Robinhood")).isSome = true := by
      rw [ha]; rfl
    rw [sync_robinhood_one_eq st pos eid hid, if_pos hf,
      updateFirst_self (accKey eid "Robinhood") (rhUpdate pos) st.1 a ha
        (rhUpdate_eq_self pos a hb hn)]

lemma sync_robinhood_idem :
    ∀ (positions : List RHPosition) (st : List Account × Nat),
      (positions.filterMap (fun p => truthyStr p.id)).Nodup →
      sync_robinhood_portfolio positions (sync_robinhood_portfolio positions st)
        = sync_robinhood_portfolio positions st := by
  intro positions
  induction positions with
  | nil => intro st _; rfl
  | cons p rest ih =>
    intro st hnd
    have hnd_rest : (rest.filterMap (fun q => truthyStr q.id)).Nodup := by
      cases hid : truthyStr p.id with
      | none => simpa [List.filterMap_cons, hid] using hnd
      | some e =>
        rw [List.filterMap_cons, hid] at hnd
        exact (List.nodup_cons.1 hnd).2
    have hdiff : ∀ q ∈ rest, ∀ eid eid', truthyStr p.id = some eid →
        truthyStr q.id = some eid' → eid' ≠ eid := by
      intro q hq eid eid' hpe hqe hc
      rw [List.filterMap_cons, hpe] at hnd
      exact (List.nodup_cons.1 hnd).1
        (hc ▸ List.mem_filterMap.2 ⟨q, hq, hqe⟩)
    show sync_robinhood_portfolio rest
        (sync_robinhood_one (sync_robinhood_portfolio rest (sync_robinhood_one st p)) p)
      = sync_robinhood_portfolio rest (sync_robinhood_one st p)
    have hfix : rhReplayFix p
        (sync_robinhood_portfolio rest (sync_robinhood_one st p)).1 :=
      rhReplayFix_fold p rest (sync_robinhood_one st p) hdiff
        (rhReplayFix_self st p)
    rw [rhReplay_noop _ p hfix]
    exact ih (sync_robinhood_one st p) hnd_rest

lemma rh_key_exists_step (st : List Account × Nat) (q : RHPosition)
    (eid src : String)
    (h : (st.1.find? (accKey eid src)).isSome = true) :
    ((sync_robinhood_one st q).1.find? (accKey eid src)).isSome = true := by
  obtain ⟨a, ha⟩ := Option.isSome_iff_exists.1 h
  cases hqid : truthyStr q.id with
  | none => rw [sync_robinhood_one_skip st q hqid]; exact h
  | some eid' =>
    rw [sync_robinhood_one_eq st q eid' hqid]
    by_cases hf : (st.1.find? (accKey eid' "Robinhood")).isSome = true
    · rw [if_pos hf]
      dsimp only
      by_cases hsame : eid = eid' ∧ src = "Robinhood"
      · obtain ⟨he, hsrc⟩ := hsame
        subst he; subst hsrc
        rw [find?_updateFirst_self _ _ (fun x => accKey_rhUpdate _ _ q x), ha]
        rfl
      · rcases not_and_or.1 hsame with hd | hd
        · rw [find?_updateFirst_disjoint _ _ _
            (fun x => accKey_rhUpdate _ _ q x)
            (accKey_disjoint eid src eid' "Robinhood" (Or.inl hd))]
          exact h
        · rw [find?_updateFirst_disjoint _ _ _
            (fun x => accKey_rhUpdate _ _ q x)
            (accKey_disjoint eid src eid' "Robinhood" (Or.inr hd))]
          exact h
    · rw [if_neg hf]
      dsimp only
      rw [find?_append_left _ _ _ a ha]
      rfl

lemma rh_key_exists_fold :
    ∀ (qs : List RHPosition) (st : List Account × Nat) (eid src : String),
      (st.1.find? (accKey eid src)).isSome = true →
      ((sync_robinhood_portfolio qs st).1.find? (accKey eid src)).isSome = true := by
  intro qs
  induction qs with
  | nil => intro st eid src h; exact h
  | cons q qs ih =>
    intro st eid src h
    exact ih (sync_robinhood_one st q) eid src (rh_key_exists_step st q eid src h)

lemma rh_member_key_exists :
    ∀ (ps : List RHPosition) (st : List Account × Nat) (p : RHPosition)
      (eid : String), p ∈ ps → truthyStr p.id = some eid →
      ((sync_robinhood_portfolio ps st).1.find?
        (accKey eid "Robinhood")).isSome = true := by
  intro ps
  induction ps with
  | nil => intro st p eid hmem _; simp at hmem
  | cons r rest ih =>
    intro st p eid hmem hid
    rcases List.mem_cons.1 hmem with rfl | hmem'
    · obtain ⟨a, ha, _, _⟩ := rhReplayFix_self st p eid hid
      have hsome : ((sync_robinhood_one st p).1.find?
          (accKey eid "Robinhood")).isSome = true := by rw [ha]; rfl
      exact rh_key_exists_fold rest (sync_robinhood_one st p) eid "Robinhood" hsome
    · exact ih (sync_robinhood_one st r) p eid hmem' hid

lemma rh_uniq_step (st : List Account × Nat) (q : RHPosition)
    (h : ∀ eid src, st.1.countP (accKey eid src) ≤ 1) :
    ∀ eid src, (sync_robinhood_one st q).1.countP (accKey eid src) ≤ 1 := by
  intro eid src
  cases hqid : truthyStr q.id with
  | none => rw [sync_robinhood_one_skip st q hqid]; exact h eid src
  | some eid' =>
    rw [sync_robinhood_one_eq st q eid' hqid]
    by_cases hf : (st.1.find? (accKey eid' "Robinhood")).isSome = true
    · rw [if_pos hf]
      dsimp only
      rw [countP_updateFirst _ _ _ (fun x => accKey_rhUpdate _ _ q x)]
      exact h eid src
    · rw [if_neg hf]
      dsimp only
      rw [List.countP_append]
      by_cases hsame : eid = eid' ∧ src = "Robinhood"
      · obtain ⟨he, hsrc⟩ := hsame
        subst he; subst hsrc
        have h0 : st.1.countP (accKey eid "Robinhood") = 0 := by
          rw [List.countP_eq_zero]
          intro a hmem
          have := List.find?_eq_none.1 (Option.not_isSome_iff_eq_none.1 hf) a hmem
          simpa using this
        have hone : accKey eid "Robinhood" (rhCreate q eid st.2) = true := by
          simp [accKey, rhCreate]
        rw [h0]
        simp [List.countP_cons, hone]
      · have hnot : accKey eid src (rhCreate q eid' st.2) = false := by
          rcases not_and_or.1 hsame with hd | hd
          · simp only [accKey, rhCreate, Bool.and_eq_false_iff]
            left
            simp
            exact fun hc => hd hc.symm
          · simp only [accKey, rhCreate, Bool.and_eq_false_iff]
            right
            simp
            exact fun hc => hd hc.symm
        have : List.countP (accKey eid src) [rhCreate q eid' st.2] = 0 := by
          simp [List.countP_cons, hnot]
        rw [this]
        simpa using h eid src

lemma rh_uniq_fold :
    ∀ (ps : List RHPosition) (st : List Account × Nat),
      (∀ eid src, st.1.countP (accKey eid src) ≤ 1) →
      ∀ eid src, (sync_robinhood_portfolio ps st).1.countP (accKey eid src) ≤ 1 := by
  intro ps
  induction ps with
  | nil => intro st h; exact h
  | cons q qs ih =>
    intro st h
    exact ih (sync_robinhood_one st q) (rh_uniq_step st q h)

/-- The plaid analogue of `rhReplayFix`: replaying a provider account record
is a no-op.  Either the first matching account exists and (unless
investment-typed) already carries the record's name and balance, or no row
matches and the record is investment-typed (never created here). -/
def plaidReplayFix (pa : PlaidAccountData) (db : List Account) : Prop :=
  (∀ a, db.find? (accKey pa.account_id "Plaid") = some a →
    a.accountType ≠ "investment" →
    a.name = pa.pname ∧ a.balance = plaidBalance pa)
  ∧ (db.find? (accKey pa.account_id "Plaid") = none → pa.ptype = "investment")

lemma plaidUpdate_eq_self (pa : PlaidAccountData) (a : Account)
    (hfix : a.accountType ≠ "investment" →
      a.name = pa.pname ∧ a.balance = plaidBalance pa) :
    plaidUpdate pa a = a := by
  unfold plaidUpdate
  split
  · rename_i hcond
    obtain ⟨h1, h2⟩ := hfix hcond
    rw [← h1, ← h2]
  · rfl

lemma plaidReplay_noop (st : List Account × Nat) (pa : PlaidAccountData)
    (hfix : plaidReplayFix pa st.1) :
    sync_plaid_accounts_one st pa = st := by
  unfold sync_plaid_accounts_one
  by_cases hf : (st.1.find? (accKey pa.account_id "Plaid")).isSome = true
  · obtain ⟨a, hfind⟩ := Option.isSome_iff_exists.1 hf
    rw [if_pos hf,
      updateFirst_self _ _ st.1 a hfind
        (plaidUpdate_eq_self pa a (hfix.1 a hfind))]
  · have hfind : st.1.find? (accKey pa.account_id "Plaid") = none :=
      Option.not_isSome_iff_eq_none.1 hf
    rw [if_neg hf, if_neg (fun hc => hc (hfix.2 hfind))]

lemma plaidReplayFix_self (st : List Account × Nat) (pa : PlaidAccountData) :
    plaidReplayFix pa (sync_plaid_accounts_one st pa).1 := by
  unfold sync_plaid_accounts_one
  by_cases hf : (st.1.find? (accKey pa.account_id "Plaid")).isSome = true
  · obtain ⟨a0, hfind⟩ := Option.isSome_iff_exists.1 hf
    rw [if_pos hf]
    constructor
    · intro a hfa hinv
      dsimp only at hfa
      rw [find?_updateFirst_self _ _
        (fun x => accKey_plaidUpdate _ _ pa x) st.1, hfind] at hfa
      simp only [Option.map_some', Option.some.injEq] at hfa
      subst hfa
      by_cases h0 : a0.accountType ≠ "investment"
      · simp [plaidUpdate, h0]
      · rw [plaidUpdate, if_neg h0] at hinv ⊢
        exact absurd hinv h0
    · intro hnone
      dsimp only at hnone
      rw [find?_updateFirst_self _ _
        (fun x => accKey_plaidUpdate _ _ pa x) st.1, hfind] at hnone
      simp at hnone
  · have hfind : st.1.find? (accKey pa.account_id "Plaid") = none :=
      Option.not_isSome_iff_eq_none.1 hf
    rw [if_neg hf]
    by_cases hp : pa.ptype ≠ "investment"
    · rw [if_pos hp]
      have hkey : accKey pa.account_id "Plaid" (plaidCreate pa st.2) = true := by
        simp [accKey, plaidCreate]
      have hfound : (st.1 ++ [plaidCreate pa st.2]).find?
          (accKey pa.account_id "Plaid") = some (plaidCreate pa st.2) := by
        rw [find?_append_of_none _ _ _ hfind]
        simp [List.find?_cons, hkey]
      constructor
      · intro a hfa _
        dsimp only at hfa
        rw [hfound] at hfa
        simp only [Option.some.injEq] at hfa
        subst hfa
        exact ⟨rfl, rfl⟩
      · intro hnone
        dsimp only at hnone
        rw [hfound] at hnone
        simp at hnone
    · rw [if_neg hp]
      refine ⟨?_, fun _ => not_not.1 hp⟩
      intro a hfa _
      rw [hfind] at hfa
      simp at hfa

lemma plaid_find?_other (st : List Account × Nat) (pa pa' : PlaidAccountData)
    (hne : pa'.account_id ≠ pa.account_id) :
    (sync_plaid_accounts_one st pa').1.find? (accKey pa.account_id "Plaid")
      = st.1.find? (accKey pa.account_id "Plaid") := by
  unfold sync_plaid_accounts_one
  by_cases hf : (st.1.find? (accKey pa'.account_id "Plaid")).isSome = true
  · rw [if_pos hf]
    dsimp only
    exact find?_updateFirst_disjoint _ _ _
      (fun x => accKey_plaidUpdate _ _ pa' x)
      (accKey_disjoint pa.account_id "Plaid" pa'.account_id "Plaid"
        (Or.inl (fun hc => hne hc.symm))) st.1
  · rw [if_neg hf]
    by_cases hp : pa'.ptype ≠ "investment"
    · rw [if_pos hp]
      dsimp only
      cases hfind : st.1.find? (accKey pa.account_id "Plaid") with
      | some a => exact find?_append_left _ _ _ a hfind
      | none =>
        rw [find?_append_of_none _ _ _ hfind]
        have hkey : accKey pa.account_id "Plaid" (plaidCreate pa' st.2) = false := by
          simp only [accKey, plaidCreate, Bool.and_eq_false_iff]
          left
          simp
          exact fun hc => hne hc
        simp [List.find?_cons, hkey]
    · rw [if_neg hp]

lemma plaidReplayFix_other (st : List Account × Nat)
    (pa pa' : PlaidAccountData) (hne : pa'.account_id ≠ pa.account_id)
    (hfix : plaidReplayFix pa st.1) :
    plaidReplayFix pa (sync_plaid_accounts_one st pa').1 := by
  have heq := plaid_find?_other st pa pa' hne
  exact ⟨fun a ha hinv => hfix.1 a (heq ▸ ha) hinv,
         fun hnone => hfix.2 (heq ▸ hnone)⟩

lemma plaidReplayFix_fold (pa : PlaidAccountData) :
    ∀ (qs : List PlaidAccountData) (st : List Account × Nat),
      (∀ q ∈ qs, q.account_id ≠ pa.account_id) →
      plaidReplayFix pa st.1 →
      plaidReplayFix pa (sync_plaid_accounts qs st).1 := by
  intro qs
  induction qs with
  | nil => intro st _ hfix; exact hfix
  | cons q qs ih =>
    intro st hq hfix
    exact ih (sync_plaid_accounts_one st q)
      (fun r hr => hq r (List.mem_cons_of_mem q hr))
      (plaidReplayFix_other st pa q (hq q (List.mem_cons_self q qs)) hfix)

lemma sync_plaid_idem :
    ∀ (pas : List PlaidAccountData) (st : List Account × Nat),
      (pas.map (fun pa => pa.account_id)).Nodup →
      sync_plaid_accounts pas (sync_plaid_accounts pas st)
        = sync_plaid_accounts pas st := by
  intro pas
  induction pas with
  | nil => intro st _; rfl
  | cons p rest ih =>
    intro st hnd
    rw [List.map_cons, List.nodup_cons] at hnd
    have hdiff : ∀ q ∈ rest, q.account_id ≠ p.account_id := by
      intro q hq hc
      exact hnd.1 (hc ▸ List.mem_map.2 ⟨q, hq, rfl⟩)
    show sync_plaid_accounts rest
        (sync_plaid_accounts_one (sync_plaid_accounts rest
          (sync_plaid_accounts_one st p)) p)
      = sync_plaid_accounts rest (sync_plaid_accounts_one st p)
    have hfix : plaidReplayFix p
        (sync_plaid_accounts rest (sync_plaid_accounts_one st p)).1 :=
      plaidReplayFix_fold p rest (sync_plaid_accounts_one st p) hdiff
        (plaidReplayFix_self st p)
    rw [plaidReplay_noop _ p hfix]
    exact ih (sync_plaid_accounts_one st p) hnd.2

lemma countP_eq_one_of (l : List Account) (p : Account → Bool)
    (hle : l.countP p ≤ 1) (hex : (l.find? p).isSome = true) :
    l.countP p = 1 := by
  obtain ⟨a, ha⟩ := Option.isSome_iff_exists.1 hex
  have hmem := List.mem_of_find?_eq_some ha
  have hpa := List.find?_some ha
  have hpos : 0 < l.countP p := List.countP_pos_iff.2 ⟨a, hmem, hpa⟩
  omega

lemma plaid_key_exists_step (st : List Account × Nat) (q : PlaidAccountData)
    (eid src : String)
    (h : (st.1.find? (accKey eid src)).isSome = true) :
    ((sync_plaid_accounts_one st q).1.find? (accKey eid src)).isSome = true := by
  obtain ⟨a, ha⟩ := Option.isSome_iff_exists.1 h
  unfold sync_plaid_accounts_one
  by_cases hf : (st.1.find? (accKey q.account_id "Plaid")).isSome = true
  · rw [if_pos hf]
    dsimp only
    by_cases hsame : eid = q.account_id ∧ src = "Plaid"
    · obtain ⟨he, hsrc⟩ := hsame
      subst he; subst hsrc
      rw [find?_updateFirst_self _ _ (fun x => accKey_plaidUpdate _ _ q x), ha]
      rfl
    · rcases not_and_or.1 hsame with hd | hd
      · rw [find?_updateFirst_disjoint _ _ _
          (fun x => accKey_plaidUpdate _ _ q x)
          (accKey_disjoint eid src q.account_id "Plaid" (Or.inl hd))]
        exact h
      · rw [find?_updateFirst_disjoint _ _ _
          (fun x => accKey_plaidUpdate _ _ q x)
          (accKey_disjoint eid src q.account_id "Plaid" (Or.inr hd))]
        exact h
  · rw [if_neg hf]
    by_cases hp : q.ptype ≠ "investment"
    · rw [if_pos hp]
      dsimp only
      rw [find?_append_left _ _ _ a ha]
      rfl
    · rw [if_neg hp]
      exact h

lemma plaid_key_exists_fold :
    ∀ (qs : List PlaidAccountData) (st : List Account × Nat) (eid src : String),
      (st.1.find? (accKey eid src)).isSome = true →
      ((sync_plaid_accounts qs st).1.find? (accKey eid src)).isSome = true := by
  intro qs
  induction qs with
  | nil => intro st eid src h; exact h
  | cons q qs ih =>
    intro st eid src h
    exact ih (sync_plaid_accounts_one st q) eid src
      (plaid_key_exists_step st q eid src h)

lemma plaid_key_after_own_step (st : List Account × Nat)
    (pa : PlaidAccountData) (hp : pa.ptype ≠ "investment") :
    ((sync_plaid_accounts_one st pa).1.find?
      (accKey pa.account_id "Plaid")).isSome = true := by
  unfold sync_plaid_accounts_one
  by_cases hf : (st.1.find? (accKey pa.account_id "Plaid")).isSome = true
  · obtain ⟨a, ha⟩ := Option.isSome_iff_exists.1 hf
    rw [if_pos hf]
    dsimp only
    rw [find?_updateFirst_self _ _ (fun x => accKey_plaidUpdate _ _ pa x), ha]
    rfl
  · have hfind : st.1.find? (accKey pa.account_id "Plaid") = none :=
      Option.not_isSome_iff_eq_none.1 hf
    rw [if_neg hf, if_pos hp]
    dsimp only
    rw [find?_append_of_none _ _ _ hfind]
    have hkey : accKey pa.account_id "Plaid" (plaidCreate pa st.2) = true := by
      simp [accKey, plaidCreate]
    simp [List.find?_cons, hkey]

lemma plaid_member_key_exists :
    ∀ (pas : List PlaidAccountData) (st : List Account × Nat)
      (pa : PlaidAccountData), pa ∈ pas → pa.ptype ≠ "investment" →
      ((sync_plaid_accounts pas st).1.find?
        (accKey pa.account_id "Plaid")).isSome = true := by
  intro pas
  induction pas with
  | nil => intro st pa hmem _; simp at hmem
  | cons r rest ih =>
    intro st pa hmem hp
    rcases List.mem_cons.1 hmem with rfl | hmem'
    · exact plaid_key_exists_fold rest (sync_plaid_accounts_one st pa)
        pa.account_id "Plaid" (plaid_key_after_own_step st pa hp)
    · exact ih (sync_plaid_accounts_one st r) pa hmem' hp

lemma plaid_uniq_step (st : List Account × Nat) (q : PlaidAccountData)
    (h : ∀ eid src, st.1.countP (accKey eid src) ≤ 1) :
    ∀ eid src, (sync_plaid_accounts_one st q).1.countP (accKey eid src) ≤ 1 := by
  intro eid src
  unfold sync_plaid_accounts_one
  by_cases hf : (st.1.find? (accKey q.account_id "Plaid")).isSome = true
  · rw [if_pos hf]
    dsimp only
    rw [countP_updateFirst _ _ _ (fun x => accKey_plaidUpdate _ _ q x)]
    exact h eid src
  · rw [if_neg hf]
    by_cases hp : q.ptype ≠ "investment"
    · rw [if_pos hp]
      dsimp only
      rw [List.countP_append]
      by_cases hsame : eid = q.account_id ∧ src = "Plaid"
      · obtain ⟨he, hsrc⟩ := hsame
        subst he; subst hsrc
        have h0 : st.1.countP (accKey q.account_id "Plaid") = 0 := by
          rw [List.countP_eq_zero]
          intro a hmem
          have := List.find?_eq_none.1 (Option.not_isSome_iff_eq_none.1 hf) a hmem
          simpa using this
        have hone : accKey q.account_id "Plaid" (plaidCreate q st.2) = true := by
          simp [accKey, plaidCreate]
        rw [h0]
        simp [List.countP_cons, hone]
      · have hnot : accKey eid src (plaidCreate q st.2) = false := by
          rcases not_and_or.1 hsame with hd | hd
          · simp only [accKey, plaidCreate, Bool.and_eq_false_iff]
            left
            simp
            exact fun hc => hd hc.symm
          · simp only [accKey, plaidCreate, Bool.and_eq_false_iff]
            right
            simp
            exact fun hc => hd hc.symm
        have hz : List.countP (accKey eid src) [plaidCreate q st.2] = 0 := by
          simp [List.countP_cons, hnot]
        rw [hz]
        simpa using h eid src
    · rw [if_neg hp]
      exact h eid src

lemma plaid_uniq_fold :
    ∀ (pas : List PlaidAccountData) (st : List Account × Nat),
      (∀ eid src, st.1.countP (accKey eid src) ≤ 1) →
      ∀ eid src, (sync_plaid_accounts pas st).1.countP (accKey eid src) ≤ 1 := by
  intro pas
  induction pas with
  | nil => intro st h; exact h
  | cons q qs ih =>
    intro st h
    exact ih (sync_plaid_accounts_one st q) (plaid_uniq_step st q h)

/-- C3: account reconciliation is idempotent.  For both reconcilers
(`sync_robinhood_portfolio`, routes.py 974-996, and the basic-accounts phase
of `sync_plaid_accounts`, routes.py 207-243): starting from a state with at
most one Account row per (external_id, source) key and a provider response
whose records carry distinct external ids, (i) running the sync a second
time with the identical response leaves the state exactly as after the first
run (the second run updates rows in place with the same values), (ii) the
key-uniqueness invariant is preserved, and (iii) each processed record ends
with exactly one Account row for its (external_id, source) pair (for Plaid,
each non-investment record — investment rows are reconciled by the separate
holdings phase). -/
theorem C3_reconcile_idempotent :
    (∀ (positions : List RHPosition) (st : List Account × Nat),
       (∀ eid src, st.1.countP (accKey eid src) ≤ 1) →
       (positions.filterMap (fun p => truthyStr p.id)).Nodup →
       sync_robinhood_portfolio positions
           (sync_robinhood_portfolio positions st)
         = sync_robinhood_portfolio positions st
       ∧ (∀ eid src,
           (sync_robinhood_portfolio positions st).1.countP (accKey eid src) ≤ 1)
       ∧ (∀ p ∈ positions, ∀ eid, truthyStr p.id = some eid →
           (sync_robinhood_portfolio positions st).1.countP
             (accKey eid "Robinhood") = 1))
    ∧ (∀ (pas : List PlaidAccountData) (st : List Account × Nat),
        (∀ eid src, st.1.countP (accKey eid src) ≤ 1) →
        (pas.map (fun pa => pa.account_id)).Nodup →
        sync_plaid_accounts pas (sync_plaid_accounts pas st)
          = sync_plaid_accounts pas st
        ∧ (∀ eid src,
            (sync_plaid_accounts pas st).1.countP (accKey eid src) ≤ 1)
        ∧ (∀ pa ∈ pas, pa.ptype ≠ "investment" →
            (sync_plaid_accounts pas st).1.countP
              (accKey pa.account_id "Plaid") = 1)) := by
  constructor
  · intro positions st huniq hnd
    refine ⟨sync_robinhood_idem positions st hnd,
      rh_uniq_fold positions st huniq, ?_⟩
    intro p hp eid hid
    exact countP_eq_one_of _ _
      (rh_uniq_fold positions st huniq eid "Robinhood")
      (rh_member_key_exists positions st p eid hp hid)
  · intro pas st huniq hnd
    refine ⟨sync_plaid_idem pas st hnd,
      plaid_uniq_fold pas st huniq, ?_⟩
    intro pa hpa hp
    exact countP_eq_one_of _ _
      (plaid_uniq_fold pas st huniq pa.account_id "Plaid")
      (plaid_member_key_exists pas st pa hpa hp)

/-- Witness for C3 at concrete single-record responses for both providers,
starting from an empty database. -/
theorem C3_reconcile_idempotent_witness :
    (sync_robinhood_portfolio [⟨some "P1", some 5, some "AAPL", some "stock"⟩]
        (sync_robinhood_portfolio
          [⟨some "P1", some 5, some "AAPL", some "stock"⟩] ([], 1))
      = sync_robinhood_portfolio
          [⟨some "P1", some 5, some "AAPL", some "stock"⟩] ([], 1)
      ∧ (∀ eid src,
          (sync_robinhood_portfolio
            [⟨some "P1", some 5, some "AAPL", some "stock"⟩]
            ([], 1)).1.countP (accKey eid src) ≤ 1)
      ∧ (∀ p ∈ [(⟨some "P1", some 5, some "AAPL", some "stock"⟩ : RHPosition)],
          ∀ eid, truthyStr p.id = some eid →
          (sync_robinhood_portfolio
            [⟨some "P1", some 5, some "AAPL", some "stock"⟩]
            ([], 1)).1.countP (accKey eid "Robinhood") = 1))
    ∧ (sync_plaid_accounts
          [⟨"A1", "Checking", "depository", some "checking", some 100, none⟩]
          (sync_plaid_accounts
            [⟨"A1", "Checking", "depository", some "checking", some 100, none⟩]
            ([], 1))
        = sync_plaid_accounts
            [⟨"A1", "Checking", "depository", some "checking", some 100, none⟩]
            ([], 1)
      ∧ (∀ eid src,
          (sync_plaid_accounts
            [⟨"A1", "Checking", "depository", some "checking", some 100, none⟩]
            ([], 1)).1.countP (accKey eid src) ≤ 1)
      ∧ (∀ pa ∈ [(⟨"A1", "Checking", "depository", some "checking", some 100,
            none⟩ : PlaidAccountData)], pa.ptype ≠ "investment" →
          (sync_plaid_accounts
            [⟨"A1", "Checking", "depository", some "checking", some 100, none⟩]
            ([], 1)).1.countP (accKey pa.account_id "Plaid") = 1)) :=
  ⟨C3_reconcile_idempotent.1 [⟨some "P1", some 5, some "AAPL", some "stock"⟩]
      ([], 1) (fun eid src => by simp) (by decide),
   C3_reconcile_idempotent.2
      [⟨"A1", "Checking", "depository", some "checking", some 100, none⟩]
      ([], 1) (fun eid src => by simp) (by decide)⟩
